import Mathlib

/-!
Verification development for `add_qufirewall_rules.py`, a single-file tool
that moves an allow-list of IP addresses to the top of the JSON rule list
stored in one field of a QuFirewall CSV export.

The Python source is shallowly embedded:
* JSON values (`json.loads` results) become the inductive type `JVal`;
  JSON numbers are modelled as integers (rule ids are integral in this data
  model), and the decoder `json.loads` itself is a parameter
  `loads : String → Except String JVal` of the functions that call it.
* Python dicts become ordered association lists `List (String × JVal)`;
  `d[k] = v` keeps the position of an existing key and appends a missing
  key, exactly like CPython's insertion-ordered dicts (`dictSetId`).
* The in-place id mutation of `update_rules_in_row` operates on shared
  dict objects (the same object can occur twice in the rebuilt list when
  the allow-list repeats an address).  Object identity is modelled with an
  explicit store `List JVal` addressed by natural-number references; the
  mutation loops become `assignSeq` over a list of references.
* Exceptions become `Except PyErr`; `str.strip` is `pyStrip` (character
  level, Python's default whitespace set), `int(x)` on JSON values is
  `pyInt` (integers, bools, and decimal string forms), both covering the
  data this tool processes.
* The filesystem used by `process` becomes an association list from paths
  to file contents; `csv.reader`/`csv.writer` (default dialect: comma
  delimiter, double-quote quoting, QUOTE_MINIMAL, CRLF line terminator)
  are embedded as `csvParse`/`csvLine`, and the `utf-8-sig` codec as
  BOM stripping/prepending.
-/

/-- JSON values as produced by `json.loads`.  Numbers are modelled as
integers (see module comment). -/
inductive JVal where
  | null : JVal
  | bool (b : Bool) : JVal
  | num (n : Int) : JVal
  | str (s : String) : JVal
  | arr (xs : List JVal) : JVal
  | obj (fs : List (String × JVal)) : JVal

/-- Python exceptions surfaced by this program. -/
inductive PyErr where
  | valueError (msg : String) : PyErr
  | indexError : PyErr
  | fileNotFound (msg : String) : PyErr
  deriving DecidableEq, Repr

/-- Python's default whitespace set for `str.strip()`. -/
def pyIsSpace (c : Char) : Bool :=
  c = ' ' || c = '\t' || c = '\n' || c = '\r' || c = '\x0b' || c = '\x0c'

/-- `str.strip()` on a character list: drop whitespace from both ends. -/
def pyStripList (cs : List Char) : List Char :=
  ((cs.dropWhile pyIsSpace).reverse.dropWhile pyIsSpace).reverse

/-- `str.strip()`. -/
def pyStrip (s : String) : String :=
  String.mk (pyStripList s.data)

/-- `str.startswith(p)`. -/
def pyStartsWith (s p : String) : Bool :=
  p.data.isPrefixOf s.data

/-- `s[:n]`: the first `n` characters. -/
def pyTakeChars (s : String) (n : Nat) : String :=
  String.mk (s.data.take n)

/-- `d.get(k)` / `d[k]` on a Python dict modelled as an association list:
the value at the first binding of the key. -/
def alookup {β : Type} (k : String) : List (String × β) → Option β
  | [] => none
  | kv :: rest => if kv.1 = k then some kv.2 else alookup k rest

/-- `rule.get("src_ip")` followed by the `isinstance(..., str)` check and
`.strip()`: the trimmed source address of a rule object, when the item is a
dict whose `src_ip` value is a string. -/
def srcKey (v : JVal) : Option String :=
  match v with
  | JVal.obj d =>
    match alookup "src_ip" d with
    | some (JVal.str s) => some (pyStrip s)
    | _ => none
  | _ => none

/-- `r["id"] = n` on a Python dict: replace the value in place if the key
exists, else append the key at the end (insertion order). -/
def dictSetId (d : List (String × JVal)) (n : Int) : List (String × JVal) :=
  if (alookup "id" d).isSome then
    d.map (fun kv => if kv.1 = "id" then (kv.1, JVal.num n) else kv)
  else
    d ++ [("id", JVal.num n)]

/-- `int(s)` on a string: surrounding whitespace, an optional sign, then
decimal digits. -/
def parseIntPy (s : String) : Option Int :=
  let t := pyStripList s.data
  let core : List Char :=
    if t.head? == some '-' || t.head? == some '+' then t.drop 1 else t
  if !core.isEmpty && core.all Char.isDigit then
    let mag : Int := core.foldl (fun n c => n * 10 + ((c.toNat - '0'.toNat : Nat) : Int)) 0
    some (if t.head? == some '-' then -mag else mag)
  else
    none

/-- `int(item["id"])` on a decoded JSON value: succeeds on integers, bools
and decimal strings; raises (here: `none`) otherwise. -/
def pyInt (v : JVal) : Option Int :=
  match v with
  | JVal.num n => some n
  | JVal.bool b => some (if b then 1 else 0)
  | JVal.str s => parseIntPy s
  | _ => none

/-- `collect_existing_ids_and_src_ips`, max-id part (the `src_ips` set it
also returns is discarded at both call sites).  Starts from 0 and takes the
max over every dict item whose `id` converts with `int(...)`. -/
def collect_max_id (rules_list : List JVal) : Int :=
  rules_list.foldl
    (fun m v =>
      match v with
      | JVal.obj d =>
        match alookup "id" d with
        | some jv =>
          match pyInt jv with
          | some n => max m n
          | none => m
        | none => m
      | _ => m)
    0

/-- The non-id field list of `build_allow_rule(src_ip, next_id)` (the `id`
key comes last in the Python dict literal and is appended in
`build_allow_rule`). -/
def buildAllowFields (src_ip : String) : List (String × JVal) :=
  [("enable", JVal.num 1),
   ("protocol", JVal.str "Any"),
   ("permission", JVal.str "Allow"),
   ("interface_warning", JVal.num 0),
   ("port_option", JVal.str "Any"),
   ("src_ip", JVal.str src_ip),
   ("interface", JVal.str "All"),
   ("display_name", JVal.str "All")]

/-- `build_allow_rule(src_ip, next_id)`: a fresh Allow rule dict. -/
def build_allow_rule (src_ip : String) (next_id : Int) : JVal :=
  JVal.obj (buildAllowFields src_ip ++ [("id", JVal.num next_id)])

/-- The `first_seen` loop of `update_rules_in_row`: scan the rule list and
record, for each trimmed `src_ip` that belongs to the allow set, the index
of the first dict rule carrying it. -/
def first_seen_go (ip_set : List String) : List JVal → Nat → List (String × Nat) → List (String × Nat)
  | [], _, acc => acc
  | v :: rest, idx, acc =>
    match srcKey v with
    | some key =>
      if key ∈ ip_set ∧ (alookup key acc).isNone then
        first_seen_go ip_set rest (idx + 1) (acc ++ [(key, idx)])
      else
        first_seen_go ip_set rest (idx + 1) acc
    | none => first_seen_go ip_set rest (idx + 1) acc

/-- `first_seen` as a map from trimmed address to the index (in the
original rule list) of the first rule with that address. -/
def first_seen_map (rules_list : List JVal) (ip_set : List String) : List (String × Nat) :=
  first_seen_go ip_set rules_list 0 []

/-- Result of the top-block construction loop: references to the rules
placed at the front (indices into the original list for reused rules,
indices past its end for newly created ones), the created rules in creation
order, and the two counters. -/
structure TopOut where
  refs : List Nat
  created : List JVal
  added : Nat
  skipped : Nat

/-- The `for ip in ip_order` loop building the top block: a matched address
reuses the first-seen rule (by reference), an unmatched address creates a
fresh `build_allow_rule(ip, 0)` whose reference is `base` plus the number
of rules created before it. -/
def buildTop (fs : List (String × Nat)) : Nat → List String → TopOut
  | _, [] => ⟨[], [], 0, 0⟩
  | base, ip :: rest =>
    match alookup ip fs with
    | some i =>
      let t := buildTop fs base rest
      ⟨i :: t.refs, t.created, t.added, t.skipped + 1⟩
    | none =>
      let t := buildTop fs (base + 1) rest
      ⟨base :: t.refs, build_allow_rule ip 0 :: t.created, t.added + 1, t.skipped⟩

/-- The `remaining_rules` loop: keep every item that is not a dict with a
string `src_ip` whose trimmed value lies in the allow set (as references
into the original list). -/
def remainingRefs (rules_list : List JVal) (ip_set : List String) : List Nat :=
  (List.range rules_list.length).filter (fun i =>
    match srcKey (rules_list.getD i JVal.null) with
    | some key => !(decide (key ∈ ip_set))
    | none => true)

/-- The id-assignment loops: walk a list of object references, and for each
reference that points at a dict, set its `id` to the running counter and
bump the counter (Python mutates the shared dict objects in place; the
store models that sharing). -/
def assignSeq (store : List JVal) : List Nat → Int → List JVal
  | [], _ => store
  | r :: rest, next =>
    match store.getD r JVal.null with
    | JVal.obj d => assignSeq (store.set r (JVal.obj (dictSetId d next))) rest (next + 1)
    | _ => assignSeq store rest next

/-- Lines 124–184 of `update_rules_in_row`: given the decoded rule list and
the pre-computed `max_id_any`, build the reordered rule list and the
`(added, skipped)` counters. -/
def update_rules_core (rules_list : List JVal) (max_id_any : Int) (ip_values : List String)
    (keep_ids : Bool) : List JVal × Nat × Nat :=
  let ip_order := ip_values.filterMap (fun ip => if pyStrip ip = "" then none else some (pyStrip ip))
  let fs := first_seen_map rules_list ip_order
  let t := buildTop fs rules_list.length ip_order
  let remRefs := remainingRefs rules_list ip_order
  let entryRefs := t.refs ++ remRefs
  let store := rules_list ++ t.created
  let store' :=
    if keep_ids then
      assignSeq store ((List.range t.created.length).map (fun j => rules_list.length + j))
        (max_id_any + 1)
    else
      assignSeq store entryRefs 1
  (entryRefs.map (fun r => store'.getD r JVal.null), t.added, t.skipped)

/-- Hexadecimal digit character (lower case), for JSON control-character
escapes. -/
def hexDigitChar (n : Nat) : Char :=
  if n < 10 then Char.ofNat ('0'.toNat + n) else Char.ofNat ('a'.toNat + (n - 10))

/-- How `json.dumps(..., ensure_ascii=False)` escapes one character. -/
def escJsonChar (c : Char) : String :=
  if c = '"' then "\\\""
  else if c = '\\' then "\\\\"
  else if c = '\n' then "\\n"
  else if c = '\t' then "\\t"
  else if c = '\r' then "\\r"
  else if c = '\x08' then "\\b"
  else if c = '\x0c' then "\\f"
  else if c.toNat < 32 then
    "\\u00" ++ String.mk [hexDigitChar (c.toNat / 16 % 16), hexDigitChar (c.toNat % 16)]
  else String.mk [c]

/-- JSON string-body escaping. -/
def escapeJson (s : String) : String :=
  (s.data.map escJsonChar).foldl (· ++ ·) ""

mutual

/-- `json.dumps(obj, ensure_ascii=False, separators=(", ", ": "))`, the
serialization used by `dump_json_field`. -/
def jvalToString : JVal → String
  | JVal.null => "null"
  | JVal.bool true => "true"
  | JVal.bool false => "false"
  | JVal.num n => toString n
  | JVal.str s => "\"" ++ escapeJson s ++ "\""
  | JVal.arr xs => "[" ++ jvalsToString xs ++ "]"
  | JVal.obj fs => "\x7b" ++ jfieldsToString fs ++ "\x7d"

/-- Array items joined by `", "`. -/
def jvalsToString : List JVal → String
  | [] => ""
  | [x] => jvalToString x
  | x :: y :: rest => jvalToString x ++ ", " ++ jvalsToString (y :: rest)

/-- Object entries `"key": value` joined by `", "`. -/
def jfieldsToString : List (String × JVal) → String
  | [] => ""
  | [kv] => "\"" ++ escapeJson kv.1 ++ "\": " ++ jvalToString kv.2
  | kv :: kv2 :: rest =>
    "\"" ++ escapeJson kv.1 ++ "\": " ++ jvalToString kv.2 ++ ", " ++ jfieldsToString (kv2 :: rest)

end

/-- `dump_json_field(obj)`. -/
def dump_json_field (v : JVal) : String :=
  jvalToString v

/-- `list.index(x)` wrapped into `Option` (Python raises `ValueError` when
the element is absent; callers translate accordingly). -/
def listIndex (l : List String) (x : String) : Option Nat :=
  match l with
  | [] => none
  | y :: rest => if y = x then some 0 else (listIndex rest x).map (fun i => i + 1)

/-- `parse_json_field(value)`.  A `None` or empty field yields Python
`None`, as does a successfully decoded JSON `null`; both are modelled as
`JVal.null` (they are indistinguishable to the callers).  A decode failure
raises `ValueError` with the underlying message and the offending content
truncated to 2000 characters. -/
def parse_json_field (loads : String → Except String JVal) (value : String) :
    Except String JVal :=
  if value = "" then Except.ok JVal.null
  else
    match loads value with
    | Except.ok v => Except.ok v
    | Except.error e =>
      Except.error
        ("Failed to parse JSON from CSV field. Error: " ++ e ++
          "\nValue (truncated): " ++ pyTakeChars value 2000)

/-- Lines 111–122 of `update_rules_in_row`: the `max_id_any` bookkeeping.
The `try` block catches only `ValueError` (a missing `rulesv6` column or a
malformed `rulesv6` JSON field are silently ignored), so an out-of-range
`rulesv6` index still raises `IndexError`. -/
def compute_max_id_any (loads : String → Except String JVal) (header row : List String)
    (rules_list : List JVal) : Except PyErr Int :=
  let max_id_rules := collect_max_id rules_list
  match listIndex header "rulesv6" with
  | none => Except.ok max_id_rules
  | some i6 =>
    match row.get? i6 with
    | none => Except.error PyErr.indexError
    | some raw6 =>
      match parse_json_field loads raw6 with
      | Except.error _ => Except.ok max_id_rules
      | Except.ok (JVal.arr xs) => Except.ok (max max_id_rules (collect_max_id xs))
      | Except.ok _ => Except.ok max_id_rules

/-- `update_rules_in_row(header, row, ip_values, keep_ids)`: returns the
updated row together with the `(added, skipped)` counters, or the raised
exception. -/
def update_rules_in_row (loads : String → Except String JVal) (header row : List String)
    (ip_values : List String) (keep_ids : Bool) :
    Except PyErr (List String × Nat × Nat) :=
  match listIndex header "rules" with
  | none => Except.error (PyErr.valueError "CSV header is missing 'rules' column")
  | some rules_index =>
    match row.get? rules_index with
    | none => Except.error PyErr.indexError
    | some rules_raw =>
      match parse_json_field loads rules_raw with
      | Except.error m => Except.error (PyErr.valueError m)
      | Except.ok parsed =>
        match parsed with
        | JVal.null => go rules_index []
        | JVal.arr xs => go rules_index xs
        | _ => Except.error (PyErr.valueError "The 'rules' column does not contain a JSON list")
where
  go (rules_index : Nat) (rules_list : List JVal) : Except PyErr (List String × Nat × Nat) :=
    match compute_max_id_any loads header row rules_list with
    | Except.error e => Except.error e
    | Except.ok max_id_any =>
      let res := update_rules_core rules_list max_id_any ip_values keep_ids
      Except.ok (row.set rules_index (dump_json_field (JVal.arr res.1)), res.2.1, res.2.2)

/-- Parser states of the `csv.reader` state machine (default dialect). -/
inductive CsvState where
  | srec : CsvState
  | sfield : CsvState
  | infield : CsvState
  | inq : CsvState
  | qinq : CsvState

/-- Flush the current (reversed) field into the current (reversed) row. -/
def csvPushField (f : List Char) (r : List String) : List String :=
  String.mk f.reverse :: r

/-- Flush the current row into the accumulated (reversed) row list. -/
def csvPushRow (r : List String) (rows : List (List String)) : List (List String) :=
  r.reverse :: rows

/-- The `csv.reader` state machine with the default dialect (delimiter
`,`, quote `"`, doubled quotes, non-strict): `f` is the current field
(reversed), `r` the current row (reversed), `rows` the rows so far
(reversed).  Record terminators are `\r\n`, `\n` and `\r`; a blank line
yields an empty record, exactly as in Python. -/
def csvGo : List Char → CsvState → List Char → List String → List (List String) →
    List (List String)
  | [], CsvState.srec, _, _, rows => rows.reverse
  | [], CsvState.sfield, f, r, rows => (csvPushRow (csvPushField f r) rows).reverse
  | [], CsvState.infield, f, r, rows => (csvPushRow (csvPushField f r) rows).reverse
  | [], CsvState.inq, f, r, rows => (csvPushRow (csvPushField f r) rows).reverse
  | [], CsvState.qinq, f, r, rows => (csvPushRow (csvPushField f r) rows).reverse
  | '\r' :: '\n' :: rest, CsvState.srec, f, r, rows =>
    csvGo rest CsvState.srec f r (csvPushRow [] rows)
  | '\r' :: rest, CsvState.srec, f, r, rows =>
    csvGo rest CsvState.srec f r (csvPushRow [] rows)
  | '\n' :: rest, CsvState.srec, f, r, rows =>
    csvGo rest CsvState.srec f r (csvPushRow [] rows)
  | c :: rest, CsvState.srec, f, r, rows =>
    -- a record starts: fall through to start-of-field handling
    if c = '"' then csvGo rest CsvState.inq f r rows
    else if c = ',' then csvGo rest CsvState.sfield [] (csvPushField [] r) rows
    else csvGo rest CsvState.infield [c] r rows
  | '\r' :: '\n' :: rest, CsvState.sfield, f, r, rows =>
    csvGo rest CsvState.srec [] [] (csvPushRow (csvPushField f r) rows)
  | '\r' :: rest, CsvState.sfield, f, r, rows =>
    csvGo rest CsvState.srec [] [] (csvPushRow (csvPushField f r) rows)
  | '\n' :: rest, CsvState.sfield, f, r, rows =>
    csvGo rest CsvState.srec [] [] (csvPushRow (csvPushField f r) rows)
  | c :: rest, CsvState.sfield, f, r, rows =>
    if c = '"' then csvGo rest CsvState.inq f r rows
    else if c = ',' then csvGo rest CsvState.sfield [] (csvPushField f r) rows
    else csvGo rest CsvState.infield (c :: f) r rows
  | '\r' :: '\n' :: rest, CsvState.infield, f, r, rows =>
    csvGo rest CsvState.srec [] [] (csvPushRow (csvPushField f r) rows)
  | '\r' :: rest, CsvState.infield, f, r, rows =>
    csvGo rest CsvState.srec [] [] (csvPushRow (csvPushField f r) rows)
  | '\n' :: rest, CsvState.infield, f, r, rows =>
    csvGo rest CsvState.srec [] [] (csvPushRow (csvPushField f r) rows)
  | c :: rest, CsvState.infield, f, r, rows =>
    if c = ',' then csvGo rest CsvState.sfield [] (csvPushField f r) rows
    else csvGo rest CsvState.infield (c :: f) r rows
  | c :: rest, CsvState.inq, f, r, rows =>
    if c = '"' then csvGo rest CsvState.qinq f r rows
    else csvGo rest CsvState.inq (c :: f) r rows
  | '\r' :: '\n' :: rest, CsvState.qinq, f, r, rows =>
    csvGo rest CsvState.srec [] [] (csvPushRow (csvPushField f r) rows)
  | '\r' :: rest, CsvState.qinq, f, r, rows =>
    csvGo rest CsvState.srec [] [] (csvPushRow (csvPushField f r) rows)
  | '\n' :: rest, CsvState.qinq, f, r, rows =>
    csvGo rest CsvState.srec [] [] (csvPushRow (csvPushField f r) rows)
  | c :: rest, CsvState.qinq, f, r, rows =>
    if c = '"' then csvGo rest CsvState.inq ('"' :: f) r rows
    else if c = ',' then csvGo rest CsvState.sfield [] (csvPushField f r) rows
    else csvGo rest CsvState.infield (c :: f) r rows

/-- `list(csv.reader(f))` on decoded file content. -/
def csvParse (s : String) : List (List String) :=
  csvGo s.data CsvState.srec [] [] []

/-- QUOTE_MINIMAL: a field is quoted iff it contains the delimiter, the
quote character, or a line-terminator character. -/
def csvNeedsQuote (s : String) : Bool :=
  s.data.any (fun c => c = ',' || c = '"' || c = '\r' || c = '\n')

/-- One serialized CSV field (`csv.writer`, default dialect): quoted with
doubled quotes when needed. -/
def csvField (s : String) : String :=
  if csvNeedsQuote s then
    "\"" ++ String.mk (s.data.foldr (fun c acc => if c = '"' then '"' :: '"' :: acc else c :: acc) []) ++ "\""
  else s

/-- One serialized CSV record with the default `\r\n` terminator.  A row
consisting of a single empty field is written as `""` (Python quotes it so
the line is not blank). -/
def csvLine (row : List String) : String :=
  (match row with
   | [s] => if s = "" then "\"\"" else csvField s
   | _ => String.intercalate "," (row.map csvField)) ++ "\r\n"

/-- `dump_csv` content: `utf-8-sig` writes a BOM, then the header row and
every data row through `csv.writer`. -/
def dump_csv_str (header : List String) (rows : List (List String)) : String :=
  "\uFEFF" ++ String.join ((header :: rows).map csvLine)

/-- The `utf-8-sig` decoder: strip one leading BOM if present. -/
def stripBOM (s : String) : String :=
  match s.data with
  | c :: rest => if c = '\uFEFF' then String.mk rest else s
  | _ => s

/-- Python text-mode line iteration (universal newlines): split into lines
at `\r\n`, `\r` or `\n`; the terminators are kept in Python but the caller
strips every line, so they are dropped here. -/
def splitLinesPy : List Char → List Char → List String
  | [], acc => if acc.isEmpty then [] else [String.mk acc.reverse]
  | '\r' :: '\n' :: rest, acc => String.mk acc.reverse :: splitLinesPy rest []
  | '\r' :: rest, acc => String.mk acc.reverse :: splitLinesPy rest []
  | '\n' :: rest, acc => String.mk acc.reverse :: splitLinesPy rest []
  | c :: rest, acc => splitLinesPy rest (c :: acc)

/-- `read_ip_list` applied to file content: strip each line, skip blanks
and `#` comments. -/
def read_ip_list_str (content : String) : List String :=
  (splitLinesPy content.data []).filterMap (fun line =>
    let v := pyStrip line
    if v = "" then none
    else if pyStartsWith v "#" then none
    else some v)

/-- The filesystem: an association list from path to file content; a write
prepends, a read takes the first binding. -/
def fsRead (fs : List (String × String)) (p : String) : Option String :=
  alookup p fs

/-- Write (create or overwrite) a file. -/
def fsWrite (fs : List (String × String)) (p c : String) : List (String × String) :=
  (p, c) :: fs

/-- `os.path.exists`. -/
def osPathExists (fs : List (String × String)) (p : String) : Bool :=
  (fsRead fs p).isSome

/-- `os.path.splitext`: split the extension off the last path component;
leading dots of the base name do not start an extension. -/
def splitext (p : String) : String × String :=
  let cs := p.data
  let sepIdx := (List.range cs.length).foldl (fun acc i => if cs.getD i ' ' = '/' then i + 1 else acc) 0
  let base := cs.drop sepIdx
  let lead := (base.takeWhile (fun c => c = '.')).length
  let stem := base.drop lead
  let dotIdx := (List.range stem.length).foldl
    (fun acc i => if stem.getD i ' ' = '.' then some i else acc) (none : Option Nat)
  match dotIdx with
  | none => (p, "")
  | some k =>
    (String.mk (cs.take (sepIdx + lead + k)), String.mk (stem.drop k))

/-- `process(csv_path, ip_txt_path, output_path, in_place, make_backup,
keep_ids)` over the modelled filesystem: returns the final filesystem and
the `(added, skipped)` counters, or the raised exception. -/
def process (loads : String → Except String JVal) (fs : List (String × String))
    (csv_path ip_txt_path : String) (output_path : Option String)
    (in_place make_backup keep_ids : Bool) :
    Except PyErr (List (String × String) × Nat × Nat) :=
  match fsRead fs csv_path with
  | none => Except.error (PyErr.fileNotFound ("CSV file not found: " ++ csv_path))
  | some content =>
    match csvParse (stripBOM content) with
    | [] => Except.error (PyErr.valueError "CSV is empty")
    | header :: data_rows =>
      match fsRead fs ip_txt_path with
      | none => Except.error (PyErr.fileNotFound ("IP list file not found: " ++ ip_txt_path))
      | some ip_content =>
        let ip_values := read_ip_list_str ip_content
        match data_rows with
        | [] => Except.error (PyErr.valueError "CSV has header but no data rows to update")
        | row0 :: rest =>
          match update_rules_in_row loads header row0 ip_values keep_ids with
          | Except.error e => Except.error e
          | Except.ok (row0', added, skipped) =>
            let (fs2, out_path) :=
              if in_place then
                (if make_backup && !(osPathExists fs (csv_path ++ ".bak")) then
                   fsWrite fs (csv_path ++ ".bak") content
                 else fs,
                 csv_path)
              else
                (fs,
                 match output_path with
                 | some p => p
                 | none =>
                   let se := splitext csv_path
                   se.1 ++ ".updated" ++ (if se.2 = "" then ".csv" else se.2))
            let fs3 := fsWrite fs2 out_path (dump_csv_str header (row0' :: rest))
            Except.ok (fs3, added, skipped)

/-! ### Derived observations on rule objects -/

/-- Whether an item is a dict (`isinstance(item, dict)`). -/
def isObj (v : JVal) : Bool :=
  match v with
  | JVal.obj _ => true
  | _ => false

/-- The `id` value of a rule object, if any. -/
def idOf (v : JVal) : Option JVal :=
  match v with
  | JVal.obj d => alookup "id" d
  | _ => none

/-- A rule object with its `id` binding removed: the "non-id fields" of a
rule (order and values of all other fields). -/
def eraseId (v : JVal) : JVal :=
  match v with
  | JVal.obj d => JVal.obj (d.filter (fun kv => !(decide (kv.1 = "id"))))
  | w => w

/-- The index of the first rule whose trimmed `src_ip` is `ip` (the
specification-side characterization of the `first_seen` map). -/
def firstMatchIdx : List JVal → String → Option Nat
  | [], _ => none
  | v :: rest, ip =>
    if srcKey v = some ip then some 0
    else (firstMatchIdx rest ip).map (fun i => i + 1)

/-! ### Small list helpers -/

theorem getD_set_ne {α : Type} (l : List α) (i j : Nat) (a d : α) (h : i ≠ j) :
    (l.set i a).getD j d = l.getD j d := by
  induction l generalizing i j with
  | nil => simp [List.set]
  | cons x xs ih =>
    cases i with
    | zero =>
      cases j with
      | zero => exact absurd rfl h
      | succ j' => simp [List.set, List.getD]
    | succ i' =>
      cases j with
      | zero => simp [List.set, List.getD]
      | succ j' =>
        simp only [List.set, List.getD_cons_succ]
        exact ih i' j' (fun hc => h (by rw [hc]))

theorem getD_set_self {α : Type} (l : List α) (i : Nat) (a d : α) (h : i < l.length) :
    (l.set i a).getD i d = a := by
  induction l generalizing i with
  | nil => simp at h
  | cons x xs ih =>
    cases i with
    | zero => simp [List.set]
    | succ i' =>
      simp only [List.set, List.getD_cons_succ]
      exact ih i' (by simpa using h)

theorem getD_append_left {α : Type} (l l2 : List α) (i : Nat) (d : α) (h : i < l.length) :
    (l ++ l2).getD i d = l.getD i d := by
  induction l generalizing i with
  | nil => simp at h
  | cons x xs ih =>
    cases i with
    | zero => simp
    | succ i' =>
      simp only [List.cons_append, List.getD_cons_succ]
      exact ih i' (by simpa using h)

theorem getD_append_right {α : Type} (l l2 : List α) (j : Nat) (d : α) :
    (l ++ l2).getD (l.length + j) d = l2.getD j d := by
  induction l with
  | nil => simp
  | cons x xs ih =>
    simpa [Nat.succ_add] using ih

theorem getD_map_in {α β : Type} (f : α → β) (l : List α) (k : Nat) (d : α) (h : k < l.length) :
    (l.map f).getD k (f d) = f (l.getD k d) := by
  induction l generalizing k with
  | nil => simp at h
  | cons x xs ih =>
    cases k with
    | zero => simp
    | succ k' =>
      simp only [List.map_cons, List.getD_cons_succ]
      exact ih k' (by simpa using h)

theorem getD_lt_length {α : Type} (l : List α) (i : Nat) (d : α) (h : l.getD i d ≠ d) :
    i < l.length := by
  by_contra hge
  have hnone : l[i]? = none := List.getElem?_eq_none (Nat.le_of_not_lt hge)
  simp [List.getD, hnone] at h

theorem getD_mem {α : Type} (l : List α) (i : Nat) (d : α) (h : i < l.length) :
    l.getD i d ∈ l := by
  induction l generalizing i with
  | nil => simp at h
  | cons x xs ih =>
    cases i with
    | zero => simp
    | succ i' => exact List.mem_cons_of_mem _ (ih i' (by simpa using h))

/-! ### Lemmas about `alookup` and `dictSetId` -/

@[simp] theorem alookup_nil {β : Type} (k : String) :
    alookup k ([] : List (String × β)) = none := rfl

@[simp] theorem alookup_cons {β : Type} (k : String) (kv : String × β)
    (rest : List (String × β)) :
    alookup k (kv :: rest) = if kv.1 = k then some kv.2 else alookup k rest := rfl

theorem alookup_append {β : Type} (k : String) (l1 l2 : List (String × β)) :
    alookup k (l1 ++ l2) = (alookup k l1).orElse (fun _ => alookup k l2) := by
  induction l1 with
  | nil => simp [Option.orElse]
  | cons kv rest ih =>
    by_cases h : kv.1 = k <;> simp [h, ih, Option.orElse]

theorem alookup_mapSetId (d : List (String × JVal)) (n : Int) (k : String) :
    alookup k (d.map (fun kv => if kv.1 = "id" then (kv.1, JVal.num n) else kv)) =
      if k = "id" then (alookup "id" d).map (fun _ => JVal.num n) else alookup k d := by
  induction d with
  | nil => by_cases hid : k = "id" <;> simp [hid]
  | cons kv rest ih =>
    have hfst : (if kv.1 = "id" then (kv.1, JVal.num n) else kv).1 = kv.1 := by
      by_cases hk : kv.1 = "id" <;> simp [hk]
    by_cases h2 : kv.1 = k
    · by_cases hid : k = "id"
      · subst hid
        simp [List.map_cons, alookup_cons, hfst, h2]
      · have hk : ¬ kv.1 = "id" := by rw [h2]; exact hid
        simp [List.map_cons, alookup_cons, hfst, h2, hk, hid]
    · by_cases hid : k = "id"
      · subst hid
        simp [List.map_cons, alookup_cons, hfst, h2, ih]
      · simp [List.map_cons, alookup_cons, hfst, h2, ih, hid]

theorem filter_mapSetId (d : List (String × JVal)) (n : Int) :
    (d.map (fun kv => if kv.1 = "id" then (kv.1, JVal.num n) else kv)).filter
        (fun kv => !(decide (kv.1 = "id"))) =
      d.filter (fun kv => !(decide (kv.1 = "id"))) := by
  induction d with
  | nil => simp
  | cons kv rest ih =>
    by_cases hk : kv.1 = "id"
    · simp [List.filter_cons, hk, ih]
    · simp [List.filter_cons, hk, ih]

theorem lookup_dictSetId_id (d : List (String × JVal)) (n : Int) :
    alookup "id" (dictSetId d n) = some (JVal.num n) := by
  unfold dictSetId
  by_cases h : (alookup "id" d).isSome
  · obtain ⟨v, hv⟩ := Option.isSome_iff_exists.mp h
    simp [h, alookup_mapSetId, hv]
  · have hnone : alookup "id" d = none := Option.not_isSome_iff_eq_none.mp h
    simp [h, alookup_append, hnone, Option.orElse]

theorem alookup_append_single_ne {β : Type} (d : List (String × β)) (k k2 : String) (v : β)
    (h : k ≠ k2) :
    alookup k (d ++ [(k2, v)]) = alookup k d := by
  induction d with
  | nil => simp [Ne.symm h]
  | cons kv rest ih =>
    by_cases h2 : kv.1 = k <;> simp [h2, ih]

theorem lookup_dictSetId_ne (d : List (String × JVal)) (n : Int) (k : String) (h : k ≠ "id") :
    alookup k (dictSetId d n) = alookup k d := by
  unfold dictSetId
  by_cases ha : (alookup "id" d).isSome
  · simp [ha, alookup_mapSetId, h]
  · simp [ha, alookup_append_single_ne d k "id" (JVal.num n) h]

theorem filter_dictSetId (d : List (String × JVal)) (n : Int) :
    (dictSetId d n).filter (fun kv => !(decide (kv.1 = "id"))) =
      d.filter (fun kv => !(decide (kv.1 = "id"))) := by
  unfold dictSetId
  by_cases ha : (alookup "id" d).isSome
  · simp [ha, filter_mapSetId]
  · simp [ha, List.filter_append, List.filter_cons]

theorem eraseId_dictSetId (d : List (String × JVal)) (n : Int) :
    eraseId (JVal.obj (dictSetId d n)) = eraseId (JVal.obj d) := by
  simp [eraseId, filter_dictSetId]

theorem alookup_filter_ne (d : List (String × JVal)) (k : String) (h : k ≠ "id") :
    alookup k (d.filter (fun kv => !(decide (kv.1 = "id")))) = alookup k d := by
  induction d with
  | nil => simp
  | cons kv rest ih =>
    by_cases hk : kv.1 = "id"
    · have h2 : ¬ (kv.1 = k) := fun hc => h (by rw [← hc, hk])
      simp [List.filter_cons, hk, h2, ih, Ne.symm h]
    · by_cases h2 : kv.1 = k
      · simp [List.filter_cons, hk, h2, h]
      · simp [List.filter_cons, hk, h2, ih, h]

theorem srcKey_eraseId (v : JVal) : srcKey (eraseId v) = srcKey v := by
  cases v with
  | obj d =>
    have : ("src_ip" : String) ≠ "id" := by decide
    simp [eraseId, srcKey, alookup_filter_ne d "src_ip" this]
  | null => rfl
  | bool b => rfl
  | num n => rfl
  | str s => rfl
  | arr xs => rfl

theorem isObj_eraseId (v : JVal) : isObj (eraseId v) = isObj v := by
  cases v <;> rfl

theorem srcKey_dictSetId (d : List (String × JVal)) (n : Int) :
    srcKey (JVal.obj (dictSetId d n)) = srcKey (JVal.obj d) := by
  have h1 := srcKey_eraseId (JVal.obj (dictSetId d n))
  have h2 := srcKey_eraseId (JVal.obj d)
  rw [← h1, ← h2, eraseId_dictSetId]

theorem eraseId_build_allow_rule (ip : String) (n : Int) :
    eraseId (build_allow_rule ip n) = JVal.obj (buildAllowFields ip) := by
  simp [eraseId, build_allow_rule, buildAllowFields, List.filter_append, List.filter_cons]

theorem dictSetId_build_allow_rule (ip : String) (n m : Int) :
    dictSetId (buildAllowFields ip ++ [("id", JVal.num n)]) m =
      buildAllowFields ip ++ [("id", JVal.num m)] := by
  have h : alookup "id" (buildAllowFields ip ++ [("id", JVal.num n)]) = some (JVal.num n) := by
    simp [buildAllowFields, alookup_append, Option.orElse]
  simp [dictSetId, h, buildAllowFields]

/-! ### Lemmas about `assignSeq` -/

theorem isObj_iff (v : JVal) : isObj v = true ↔ ∃ d, v = JVal.obj d := by
  cases v <;> simp [isObj]

theorem isObj_false (v : JVal) (h : ¬ isObj v = true) : isObj v = false := by
  revert h
  cases isObj v <;> simp

theorem assignSeq_cons_obj (store : List JVal) (r : Nat) (rest : List Nat) (n : Int)
    (d : List (String × JVal)) (hv : store.getD r JVal.null = JVal.obj d) :
    assignSeq store (r :: rest) n =
      assignSeq (store.set r (JVal.obj (dictSetId d n))) rest (n + 1) := by
  have hv' : store[r]?.getD JVal.null = JVal.obj d := by simpa [List.getD] using hv
  simp [assignSeq, hv']

theorem assignSeq_cons_not_obj (store : List JVal) (r : Nat) (rest : List Nat) (n : Int)
    (hv : isObj (store.getD r JVal.null) = false) :
    assignSeq store (r :: rest) n = assignSeq store rest n := by
  cases hv2 : store.getD r JVal.null with
  | obj d => rw [hv2] at hv; simp [isObj] at hv
  | null =>
    have hv' : store[r]?.getD JVal.null = JVal.null := by simpa [List.getD] using hv2
    simp [assignSeq, hv']
  | bool b =>
    have hv' : store[r]?.getD JVal.null = JVal.bool b := by simpa [List.getD] using hv2
    simp [assignSeq, hv']
  | num m =>
    have hv' : store[r]?.getD JVal.null = JVal.num m := by simpa [List.getD] using hv2
    simp [assignSeq, hv']
  | str s =>
    have hv' : store[r]?.getD JVal.null = JVal.str s := by simpa [List.getD] using hv2
    simp [assignSeq, hv']
  | arr xs =>
    have hv' : store[r]?.getD JVal.null = JVal.arr xs := by simpa [List.getD] using hv2
    simp [assignSeq, hv']

theorem assignSeq_getD_not_mem (store : List JVal) (refs : List Nat) (n : Int) (r : Nat)
    (h : r ∉ refs) :
    (assignSeq store refs n).getD r JVal.null = store.getD r JVal.null := by
  induction refs generalizing store n with
  | nil => rfl
  | cons r' rest ih =>
    have hne : r' ≠ r := fun hc => h (hc ▸ List.mem_cons_self r' rest)
    have hr : r ∉ rest := fun hc => h (List.mem_cons_of_mem _ hc)
    by_cases hobj : isObj (store.getD r' JVal.null) = true
    · obtain ⟨d, hd⟩ := (isObj_iff _).mp hobj
      rw [assignSeq_cons_obj store r' rest n d hd, ih _ _ hr, getD_set_ne _ _ _ _ _ hne]
    · rw [assignSeq_cons_not_obj store r' rest n (isObj_false _ hobj), ih _ _ hr]

theorem assignSeq_getD_eraseId (store : List JVal) (refs : List Nat) (n : Int) (r : Nat) :
    eraseId ((assignSeq store refs n).getD r JVal.null) = eraseId (store.getD r JVal.null) := by
  induction refs generalizing store n with
  | nil => rfl
  | cons r' rest ih =>
    by_cases hobj : isObj (store.getD r' JVal.null) = true
    · obtain ⟨d, hd⟩ := (isObj_iff _).mp hobj
      rw [assignSeq_cons_obj store r' rest n d hd, ih]
      by_cases hrr : r' = r
      · subst hrr
        have hlt : r' < store.length := getD_lt_length store r' JVal.null
          (by rw [hd]; intro hc; cases hc)
        rw [getD_set_self _ _ _ _ hlt, hd, eraseId_dictSetId]
      · rw [getD_set_ne _ _ _ _ _ hrr]
    · rw [assignSeq_cons_not_obj store r' rest n (isObj_false _ hobj), ih]

theorem countP_congr_on {α : Type} (l : List α) (p q : α → Bool) (h : ∀ a ∈ l, p a = q a) :
    l.countP p = l.countP q := by
  induction l with
  | nil => rfl
  | cons x xs ih =>
    simp only [List.countP_cons, h x (List.mem_cons_self x xs),
      ih (fun a ha => h a (List.mem_cons_of_mem _ ha))]

/-- The central description of sequential id assignment when the reference
list has no duplicates: the object at the `k`-th reference receives id
`n` plus the number of dict objects among the earlier references. -/
theorem assignSeq_getD_nodup (store : List JVal) (refs : List Nat) (n : Int) (k : Nat)
    (hnd : refs.Nodup) (hk : k < refs.length) :
    (assignSeq store refs n).getD (refs.getD k 0) JVal.null =
      match store.getD (refs.getD k 0) JVal.null with
      | JVal.obj d =>
        JVal.obj (dictSetId d
          (n + ((refs.take k).countP (fun r => isObj (store.getD r JVal.null)) : Nat)))
      | v => v := by
  induction refs generalizing store n k with
  | nil => simp at hk
  | cons r rest ih =>
    have hnr : r ∉ rest := (List.nodup_cons.mp hnd).1
    have hndr : rest.Nodup := (List.nodup_cons.mp hnd).2
    cases k with
    | zero =>
      simp only [List.getD_cons_zero, List.take_zero, List.countP_nil, Nat.cast_zero, add_zero]
      by_cases hobj : isObj (store.getD r JVal.null) = true
      · obtain ⟨d, hd⟩ := (isObj_iff _).mp hobj
        have hlt : r < store.length := getD_lt_length store r JVal.null
          (by rw [hd]; intro hc; cases hc)
        rw [assignSeq_cons_obj store r rest n d hd, assignSeq_getD_not_mem _ _ _ _ hnr,
          getD_set_self _ _ _ _ hlt, hd]
      · rw [assignSeq_cons_not_obj store r rest n (isObj_false _ hobj),
          assignSeq_getD_not_mem _ _ _ _ hnr]
        cases hv : store.getD r JVal.null with
        | obj d => rw [hv] at hobj; simp [isObj] at hobj
        | null => rfl
        | bool b => rfl
        | num m => rfl
        | str s => rfl
        | arr xs => rfl
    | succ k' =>
      have hk' : k' < rest.length := by simpa using hk
      have hmem : rest.getD k' 0 ∈ rest := getD_mem rest k' 0 hk'
      have hner : r ≠ rest.getD k' 0 := fun hc => hnr (hc ▸ hmem)
      simp only [List.getD_cons_succ, List.take_succ_cons]
      by_cases hobj : isObj (store.getD r JVal.null) = true
      · obtain ⟨d, hd⟩ := (isObj_iff _).mp hobj
        rw [assignSeq_cons_obj store r rest n d hd, ih _ _ k' hndr hk']
        have hgd : (store.set r (JVal.obj (dictSetId d n))).getD (rest.getD k' 0) JVal.null =
            store.getD (rest.getD k' 0) JVal.null := getD_set_ne _ _ _ _ _ hner
        have hcnt : (rest.take k').countP
              (fun r2 => isObj ((store.set r (JVal.obj (dictSetId d n))).getD r2 JVal.null)) =
            (rest.take k').countP (fun r2 => isObj (store.getD r2 JVal.null)) := by
          apply countP_congr_on
          intro x hx
          have hxmem : x ∈ rest := List.take_subset _ _ hx
          have hxr : r ≠ x := fun hc => hnr (hc ▸ hxmem)
          rw [getD_set_ne _ _ _ _ _ hxr]
        rw [hgd, hcnt]
        cases hv : store.getD (rest.getD k' 0) JVal.null with
        | obj d2 =>
          simp only [List.countP_cons, hobj, if_true]
          congr 2
          push_cast
          omega
        | null => rfl
        | bool b => rfl
        | num m => rfl
        | str s => rfl
        | arr xs => rfl
      · rw [assignSeq_cons_not_obj store r rest n (isObj_false _ hobj), ih _ _ k' hndr hk']
        cases hv : store.getD (rest.getD k' 0) JVal.null with
        | obj d2 =>
          have hobj2 : isObj (store[r]?.getD JVal.null) = false := by
            simpa [List.getD] using isObj_false _ hobj
          simp [List.countP_cons, hobj2]
        | null => rfl
        | bool b => rfl
        | num m => rfl
        | str s => rfl
        | arr xs => rfl

/-! ### The `first_seen` map finds the first matching rule -/

theorem option_map_map_add (o : Option Nat) (idx : Nat) :
    (o.map (fun i => i + 1)).map (fun i => i + idx) = o.map (fun i => i + (idx + 1)) := by
  cases o with
  | none => rfl
  | some j => simp; omega

theorem first_seen_go_lookup (ip_set : List String) (rest : List JVal) (idx : Nat)
    (acc : List (String × Nat)) (ip : String) (hip : ip ∈ ip_set) :
    alookup ip (first_seen_go ip_set rest idx acc) =
      (alookup ip acc).orElse (fun _ => (firstMatchIdx rest ip).map (fun i => i + idx)) := by
  induction rest generalizing idx acc with
  | nil =>
    cases h : alookup ip acc <;> simp [first_seen_go, firstMatchIdx, Option.orElse, h]
  | cons v vrest ih =>
    cases hsk : srcKey v with
    | none =>
      have hstep : first_seen_go ip_set (v :: vrest) idx acc =
          first_seen_go ip_set vrest (idx + 1) acc := by
        simp [first_seen_go, hsk]
      rw [hstep, ih]
      have hfm : firstMatchIdx (v :: vrest) ip = (firstMatchIdx vrest ip).map (fun i => i + 1) := by
        simp [firstMatchIdx, hsk]
      rw [hfm, option_map_map_add]
    | some key =>
      by_cases hcond : key ∈ ip_set ∧ (alookup key acc).isNone
      · have hstep : first_seen_go ip_set (v :: vrest) idx acc =
            first_seen_go ip_set vrest (idx + 1) (acc ++ [(key, idx)]) := by
          simp [first_seen_go, hsk, hcond]
        rw [hstep, ih]
        by_cases hik : ip = key
        · subst hik
          have hnone : alookup ip acc = none := Option.isNone_iff_eq_none.mp hcond.2
          have hsingle : alookup ip (acc ++ [(ip, idx)]) = some idx := by
            rw [alookup_append, hnone]
            simp [Option.orElse]
          have hfm : firstMatchIdx (v :: vrest) ip = some 0 := by
            simp [firstMatchIdx, hsk]
          rw [hsingle, hnone, hfm]
          simp [Option.orElse]
        · have happ : alookup ip (acc ++ [(key, idx)]) = alookup ip acc :=
            alookup_append_single_ne acc ip key idx hik
          have hne : ¬ (srcKey v = some ip) := by
            rw [hsk]
            simp
            exact fun hc => hik hc.symm
          have hfm : firstMatchIdx (v :: vrest) ip =
              (firstMatchIdx vrest ip).map (fun i => i + 1) := by
            simp [firstMatchIdx, hne]
          rw [happ, hfm, option_map_map_add]
      · have hstep : first_seen_go ip_set (v :: vrest) idx acc =
            first_seen_go ip_set vrest (idx + 1) acc := by
          simp only [first_seen_go, hsk]
          rw [if_neg hcond]
        rw [hstep, ih]
        by_cases hik : ip = key
        · subst hik
          obtain ⟨j, hj⟩ : ∃ j, alookup ip acc = some j := by
            cases hv2 : alookup ip acc with
            | none => exact absurd ⟨hip, by simp [hv2]⟩ hcond
            | some j => exact ⟨j, rfl⟩
          rw [hj]
          simp [Option.orElse]
        · have hne : ¬ (srcKey v = some ip) := by
            rw [hsk]
            simp
            exact fun hc => hik hc.symm
          have hfm : firstMatchIdx (v :: vrest) ip =
              (firstMatchIdx vrest ip).map (fun i => i + 1) := by
            simp [firstMatchIdx, hne]
          rw [hfm, option_map_map_add]

theorem first_seen_map_lookup (rules : List JVal) (ip_set : List String) (ip : String)
    (hip : ip ∈ ip_set) :
    alookup ip (first_seen_map rules ip_set) = firstMatchIdx rules ip := by
  have h := first_seen_go_lookup ip_set rules 0 [] ip hip
  simp only [first_seen_map, h, alookup_nil]
  cases firstMatchIdx rules ip <;> simp [Option.orElse]

theorem firstMatchIdx_spec (rules : List JVal) (ip : String) (i : Nat)
    (h : firstMatchIdx rules ip = some i) :
    i < rules.length ∧ srcKey (rules.getD i JVal.null) = some ip := by
  induction rules generalizing i with
  | nil => simp [firstMatchIdx] at h
  | cons v rest ih =>
    by_cases hv : srcKey v = some ip
    · simp only [firstMatchIdx, hv, if_true, Option.some.injEq] at h
      subst h
      exact ⟨by simp, by simpa using hv⟩
    · simp only [firstMatchIdx, hv, if_false, Option.map_eq_some'] at h
      obtain ⟨j, hj, hji⟩ := h
      obtain ⟨hlt, hsk⟩ := ih j hj
      subst hji
      exact ⟨by simpa using hlt, by simpa using hsk⟩

theorem firstMatchIdx_min (rules : List JVal) (ip : String) (i : Nat)
    (h : firstMatchIdx rules ip = some i) (j : Nat) (hj : j < i) :
    ¬ srcKey (rules.getD j JVal.null) = some ip := by
  induction rules generalizing i j with
  | nil => simp [firstMatchIdx] at h
  | cons v rest ih =>
    by_cases hv : srcKey v = some ip
    · simp only [firstMatchIdx, hv, if_true, Option.some.injEq] at h
      omega
    · simp only [firstMatchIdx, hv, if_false, Option.map_eq_some'] at h
      obtain ⟨i', hi', hii⟩ := h
      cases j with
      | zero => simpa using hv
      | succ j' =>
        simp only [List.getD_cons_succ]
        exact ih i' hi' j' (by omega)

/-! ### Lemmas about `buildTop` and `remainingRefs` -/

theorem buildTop_refs_length (fs : List (String × Nat)) (base : Nat) (ips : List String) :
    (buildTop fs base ips).refs.length = ips.length := by
  induction ips generalizing base with
  | nil => rfl
  | cons ip rest ih =>
    cases h : alookup ip fs <;> simp [buildTop, h, ih]

theorem buildTop_created (fs : List (String × Nat)) (base : Nat) (ips : List String) :
    (buildTop fs base ips).created =
      (ips.filter (fun ip => (alookup ip fs).isNone)).map (fun ip => build_allow_rule ip 0) := by
  induction ips generalizing base with
  | nil => rfl
  | cons ip rest ih =>
    cases h : alookup ip fs with
    | some i => simp [buildTop, h, List.filter_cons, ih]
    | none => simp [buildTop, h, List.filter_cons, ih]

theorem buildTop_added (fs : List (String × Nat)) (base : Nat) (ips : List String) :
    (buildTop fs base ips).added = ips.countP (fun ip => (alookup ip fs).isNone) := by
  induction ips generalizing base with
  | nil => rfl
  | cons ip rest ih =>
    cases h : alookup ip fs with
    | some i => simp [buildTop, h, List.countP_cons, ih]
    | none => simp [buildTop, h, List.countP_cons, ih]

theorem buildTop_skipped (fs : List (String × Nat)) (base : Nat) (ips : List String) :
    (buildTop fs base ips).skipped = ips.countP (fun ip => (alookup ip fs).isSome) := by
  induction ips generalizing base with
  | nil => rfl
  | cons ip rest ih =>
    cases h : alookup ip fs with
    | some i => simp [buildTop, h, List.countP_cons, ih]
    | none => simp [buildTop, h, List.countP_cons, ih]

theorem buildTop_refs_getD (fs : List (String × Nat)) (base : Nat) (ips : List String)
    (k : Nat) (hk : k < ips.length) :
    (buildTop fs base ips).refs.getD k 0 =
      match alookup (ips.getD k "") fs with
      | some i => i
      | none => base + ((ips.take k).countP (fun ip => (alookup ip fs).isNone)) := by
  induction ips generalizing base k with
  | nil => simp at hk
  | cons ip rest ih =>
    cases k with
    | zero =>
      cases h : alookup ip fs <;> simp [buildTop, h]
    | succ k' =>
      have hk' : k' < rest.length := by simpa using hk
      cases h : alookup ip fs with
      | some i =>
        simp only [buildTop, h, List.getD_cons_succ]
        rw [ih base k' hk']
        cases h2 : alookup (rest.getD k' "") fs <;>
          simp [List.take_succ_cons, List.countP_cons, h, h2]
      | none =>
        simp only [buildTop, h, List.getD_cons_succ]
        rw [ih (base + 1) k' hk']
        have hc : ((ip :: rest).take (k' + 1)).countP (fun ip => (alookup ip fs).isNone) =
            (rest.take k').countP (fun ip => (alookup ip fs).isNone) + 1 := by
          simp [List.take_succ_cons, List.countP_cons, h]
        rw [hc]
        cases h2 : alookup (rest.getD k' "") fs
        · simp only [h2]
          ring
        · simp only [h2]

theorem buildTop_refs_mem (fs : List (String × Nat)) (base : Nat) (ips : List String)
    (j : Nat) (h : j ∈ (buildTop fs base ips).refs) :
    (∃ ip ∈ ips, alookup ip fs = some j) ∨
      (base ≤ j ∧ j < base + ips.countP (fun ip => (alookup ip fs).isNone)) := by
  induction ips generalizing base with
  | nil => simp [buildTop] at h
  | cons ip rest ih =>
    cases hl : alookup ip fs with
    | some i =>
      simp only [buildTop, hl] at h
      rcases List.mem_cons.mp h with hj | hj
      · exact Or.inl ⟨ip, List.mem_cons_self _ _, by rw [hl, hj]⟩
      · rcases ih base hj with ⟨ip2, hmem, hl2⟩ | ⟨h1, h2⟩
        · exact Or.inl ⟨ip2, List.mem_cons_of_mem _ hmem, hl2⟩
        · refine Or.inr ⟨h1, ?_⟩
          simp only [List.countP_cons, hl]
          simpa using h2
    | none =>
      simp only [buildTop, hl] at h
      rcases List.mem_cons.mp h with hj | hj
      · subst hj
        refine Or.inr ⟨Nat.le_refl _, ?_⟩
        have hc : (ip :: rest).countP (fun ip => (alookup ip fs).isNone) =
            rest.countP (fun ip => (alookup ip fs).isNone) + 1 := by
          simp [List.countP_cons, hl]
        rw [hc]
        omega
      · rcases ih (base + 1) hj with ⟨ip2, hmem, hl2⟩ | ⟨h1, h2⟩
        · exact Or.inl ⟨ip2, List.mem_cons_of_mem _ hmem, hl2⟩
        · refine Or.inr ⟨by omega, ?_⟩
          have hc : (ip :: rest).countP (fun ip => (alookup ip fs).isNone) =
              rest.countP (fun ip => (alookup ip fs).isNone) + 1 := by
            simp [List.countP_cons, hl]
          rw [hc]
          omega

theorem remainingRefs_mem (rules : List JVal) (S : List String) (i : Nat)
    (h : i ∈ remainingRefs rules S) :
    i < rules.length ∧ ∀ key, srcKey (rules.getD i JVal.null) = some key → ¬ key ∈ S := by
  unfold remainingRefs at h
  have h1 := List.mem_filter.mp h
  refine ⟨List.mem_range.mp h1.1, ?_⟩
  intro key hkey hmem
  have h2 := h1.2
  rw [hkey] at h2
  simp at h2
  exact h2 hmem

theorem remainingRefs_lt (rules : List JVal) (S : List String) (i : Nat)
    (h : i ∈ remainingRefs rules S) : i < rules.length :=
  (remainingRefs_mem rules S i h).1

theorem remainingRefs_nodup (rules : List JVal) (S : List String) :
    (remainingRefs rules S).Nodup :=
  List.Nodup.filter _ (List.nodup_range _)

theorem remainingRefs_empty_set (rules : List JVal) :
    remainingRefs rules [] = List.range rules.length := by
  unfold remainingRefs
  apply List.filter_eq_self.mpr
  intro i hi
  cases srcKey (rules.getD i JVal.null) <;> simp

theorem filter_getD_countP {α : Type} (p : α → Bool) (l : List α) (k : Nat) (d : α)
    (hk : k < l.length) (hp : p (l.getD k d) = true) :
    (l.filter p).getD ((l.take k).countP p) d = l.getD k d := by
  induction l generalizing k with
  | nil => simp at hk
  | cons x xs ih =>
    cases k with
    | zero =>
      simp only [List.getD_cons_zero] at hp ⊢
      simp [List.take_zero, List.countP_nil, List.filter_cons, hp]
    | succ k' =>
      have hk' : k' < xs.length := by simpa using hk
      simp only [List.getD_cons_succ] at hp ⊢
      by_cases hx : p x
      · rw [List.take_succ_cons]
        have hcnt : (x :: xs.take k').countP p = (xs.take k').countP p + 1 := by
          simp [List.countP_cons, hx]
        have hfil : (x :: xs).filter p = x :: xs.filter p := List.filter_cons_of_pos hx
        rw [hcnt, hfil, List.getD_cons_succ]
        exact ih k' hk' hp
      · rw [List.take_succ_cons]
        have hcnt : (x :: xs.take k').countP p = (xs.take k').countP p := by
          simp [List.countP_cons, hx]
        have hfil : (x :: xs).filter p = xs.filter p := List.filter_cons_of_neg hx
        rw [hcnt, hfil]
        exact ih k' hk' hp

theorem filterMap_strip_eq_self (ips : List String)
    (h : ∀ ip ∈ ips, pyStrip ip = ip ∧ ip ≠ "") :
    ips.filterMap (fun ip => if pyStrip ip = "" then none else some (pyStrip ip)) = ips := by
  induction ips with
  | nil => rfl
  | cons ip rest ih =>
    have h1 := h ip (List.mem_cons_self _ _)
    have hne : ¬ (pyStrip ip = "") := by rw [h1.1]; exact h1.2
    simp [List.filterMap_cons, hne, h1.1, h1.2,
      ih (fun a ha => h a (List.mem_cons_of_mem _ ha))]

/-! ### Support lemmas for the claim theorems -/

theorem map_getD_lt {α β : Type} (f : α → β) (l : List α) (k : Nat) (d1 : β) (d2 : α)
    (h : k < l.length) : (l.map f).getD k d1 = f (l.getD k d2) := by
  induction l generalizing k with
  | nil => simp at h
  | cons x xs ih =>
    cases k with
    | zero => simp
    | succ k' =>
      simp only [List.map_cons, List.getD_cons_succ]
      exact ih k' (by simpa using h)

theorem srcKey_isObj (v : JVal) (key : String) (h : srcKey v = some key) : isObj v = true := by
  cases v with
  | obj d => rfl
  | null => simp [srcKey] at h
  | bool b => simp [srcKey] at h
  | num n => simp [srcKey] at h
  | str s => simp [srcKey] at h
  | arr xs => simp [srcKey] at h

theorem countP_take_lt {α : Type} (p : α → Bool) (l : List α) (k : Nat) (d : α)
    (hk : k < l.length) (hp : p (l.getD k d) = true) :
    (l.take k).countP p < l.countP p := by
  induction l generalizing k with
  | nil => simp at hk
  | cons x xs ih =>
    cases k with
    | zero =>
      simp only [List.getD_cons_zero] at hp
      simp [List.countP_cons, hp]
    | succ k' =>
      have hk' : k' < xs.length := by simpa using hk
      simp only [List.getD_cons_succ] at hp
      have := ih k' hk' hp
      simp only [List.take_succ_cons, List.countP_cons]
      omega

/-- The allow-list passed through `update_rules_in_row` after the
`ip.strip()` comprehension (`ip_order`). -/
def ipOrderOf (ip_values : List String) : List String :=
  ip_values.filterMap (fun ip => if pyStrip ip = "" then none else some (pyStrip ip))

theorem ipOrderOf_eq_self (ips : List String) (h : ∀ ip ∈ ips, pyStrip ip = ip ∧ ip ≠ "") :
    ipOrderOf ips = ips :=
  filterMap_strip_eq_self ips h

/-- `parse_json_field` produced the given rules list: either the field
decoded to that JSON array, or the field was empty / JSON `null` and the
list is empty (lines 104–107 of the source). -/
def parsesToList (loads : String → Except String JVal) (raw : String) (rules : List JVal) :
    Prop :=
  parse_json_field loads raw = Except.ok (JVal.arr rules) ∨
    (parse_json_field loads raw = Except.ok JVal.null ∧ rules = [])

theorem update_rules_in_row_eq (loads : String → Except String JVal) (header row : List String)
    (ips : List String) (kid : Bool) (i : Nat) (raw : String) (rules : List JVal) (m : Int)
    (h1 : listIndex header "rules" = some i) (h2 : row.get? i = some raw)
    (h3 : parsesToList loads raw rules)
    (h4 : compute_max_id_any loads header row rules = Except.ok m) :
    update_rules_in_row loads header row ips kid =
      Except.ok
        (row.set i (dump_json_field (JVal.arr (update_rules_core rules m ips kid).1)),
         (update_rules_core rules m ips kid).2.1,
         (update_rules_core rules m ips kid).2.2) := by
  rcases h3 with h3 | ⟨h3, hrules⟩
  · simp only [update_rules_in_row, h1, h2, h3, update_rules_in_row.go, h4]
  · subst hrules
    simp only [update_rules_in_row, h1, h2, h3, update_rules_in_row.go, h4]

/-- `update_rules_core`, restated over the named components (pure
unfolding). -/
theorem update_rules_core_def (rules : List JVal) (m : Int) (ips0 : List String) (kid : Bool) :
    update_rules_core rules m ips0 kid =
      (let ip_order := ipOrderOf ips0
       let fs := first_seen_map rules ip_order
       let t := buildTop fs rules.length ip_order
       let entryRefs := t.refs ++ remainingRefs rules ip_order
       let store := rules ++ t.created
       let store' :=
         if kid then
           assignSeq store ((List.range t.created.length).map (fun j => rules.length + j)) (m + 1)
         else
           assignSeq store entryRefs 1
       (entryRefs.map (fun r => store'.getD r JVal.null), t.added, t.skipped)) := rfl

theorem update_rules_core_length (rules : List JVal) (m : Int) (ips : List String) (kid : Bool)
    (hwf : ∀ ip ∈ ips, pyStrip ip = ip ∧ ip ≠ "") :
    (update_rules_core rules m ips kid).1.length =
      ips.length + (remainingRefs rules ips).length := by
  rw [update_rules_core_def, ipOrderOf_eq_self ips hwf]
  simp [buildTop_refs_length]

/-- Position `k < ips.length` of the output: a matched entry carries the
first matching rule's non-id fields, an unmatched entry carries the default
Allow fields with the entry as `src_ip`; either way it is a rule object. -/
theorem update_rules_core_top (rules : List JVal) (m : Int) (ips : List String) (kid : Bool)
    (hwf : ∀ ip ∈ ips, pyStrip ip = ip ∧ ip ≠ "") (k : Nat) (hk : k < ips.length) :
    isObj ((update_rules_core rules m ips kid).1.getD k JVal.null) = true ∧
    (match firstMatchIdx rules (ips.getD k "") with
     | some j =>
       eraseId ((update_rules_core rules m ips kid).1.getD k JVal.null) =
         eraseId (rules.getD j JVal.null)
     | none =>
       eraseId ((update_rules_core rules m ips kid).1.getD k JVal.null) =
         JVal.obj (buildAllowFields (ips.getD k ""))) := by
  have hip : ipOrderOf ips = ips := ipOrderOf_eq_self ips hwf
  rw [update_rules_core_def, hip]
  simp only []
  set fs := first_seen_map rules ips with hfs
  set t := buildTop fs rules.length ips with ht
  set rem := remainingRefs rules ips with hrem
  set store := rules ++ t.created with hstore
  set store' :=
    (if kid then
      assignSeq store ((List.range t.created.length).map (fun j => rules.length + j)) (m + 1)
    else
      assignSeq store (t.refs ++ rem) 1) with hstore'
  have hreflen : t.refs.length = ips.length := buildTop_refs_length fs rules.length ips
  have hklt : k < (t.refs ++ rem).length := by
    rw [List.length_append, hreflen]
    omega
  have hout : ((t.refs ++ rem).map (fun r => store'.getD r JVal.null)).getD k JVal.null =
      store'.getD ((t.refs ++ rem).getD k 0) JVal.null :=
    map_getD_lt _ _ k JVal.null 0 hklt
  have hentry : (t.refs ++ rem).getD k 0 = t.refs.getD k 0 :=
    getD_append_left _ _ k 0 (by omega)
  have hfsk : alookup (ips.getD k "") fs = firstMatchIdx rules (ips.getD k "") :=
    first_seen_map_lookup rules ips (ips.getD k "") (getD_mem ips k "" hk)
  have hrefk := buildTop_refs_getD fs rules.length ips k hk
  -- every store-to-final transformation preserves the non-id fields
  have herase : ∀ r : Nat,
      eraseId (store'.getD r JVal.null) = eraseId (store.getD r JVal.null) := by
    intro r
    rw [hstore']
    by_cases hkid : kid
    · simp only [hkid, if_true]
      exact assignSeq_getD_eraseId _ _ _ r
    · simp only [hkid, if_false]
      exact assignSeq_getD_eraseId _ _ _ r
  cases hfm : firstMatchIdx rules (ips.getD k "") with
  | some j =>
    obtain ⟨hjlt, hsk⟩ := firstMatchIdx_spec rules (ips.getD k "") j hfm
    have hrj : t.refs.getD k 0 = j := by
      rw [hrefk, hfsk, hfm]
    have hstj : store.getD j JVal.null = rules.getD j JVal.null :=
      getD_append_left _ _ j JVal.null hjlt
    have hmain : eraseId (((t.refs ++ rem).map (fun r => store'.getD r JVal.null)).getD k
        JVal.null) = eraseId (rules.getD j JVal.null) := by
      rw [hout, hentry, hrj, herase j, hstj]
    constructor
    · have hiso : isObj (rules.getD j JVal.null) = true :=
        srcKey_isObj _ _ hsk
      rw [← isObj_eraseId, hmain, isObj_eraseId]
      exact hiso
    · exact hmain
  | none =>
    have hpk : (fun ip => (alookup ip fs).isNone) (ips.getD k "") = true := by
      simp only [hfsk, hfm, Option.isNone_none]
    have hrj : t.refs.getD k 0 =
        rules.length + (ips.take k).countP (fun ip => (alookup ip fs).isNone) := by
      rw [hrefk, hfsk, hfm]
    set cB := (ips.take k).countP (fun ip => (alookup ip fs).isNone) with hcB
    have hcreated : t.created =
        (ips.filter (fun ip => (alookup ip fs).isNone)).map (fun ip => build_allow_rule ip 0) :=
      buildTop_created fs rules.length ips
    have hcblt : cB < (ips.filter (fun ip => (alookup ip fs).isNone)).length := by
      rw [← List.countP_eq_length_filter]
      exact countP_take_lt _ ips k "" hk hpk
    have hfilget : (ips.filter (fun ip => (alookup ip fs).isNone)).getD cB "" = ips.getD k "" :=
      filter_getD_countP _ ips k "" hk hpk
    have hcreatedk : t.created.getD cB JVal.null = build_allow_rule (ips.getD k "") 0 := by
      rw [hcreated, map_getD_lt _ _ cB JVal.null "" hcblt, hfilget]
    have hstj : store.getD (rules.length + cB) JVal.null =
        build_allow_rule (ips.getD k "") 0 := by
      rw [hstore, getD_append_right, hcreatedk]
    have hmain : eraseId (((t.refs ++ rem).map (fun r => store'.getD r JVal.null)).getD k
        JVal.null) = JVal.obj (buildAllowFields (ips.getD k "")) := by
      rw [hout, hentry, hrj, herase _, hstj, eraseId_build_allow_rule]
    constructor
    · rw [← isObj_eraseId, hmain]
      rfl
    · exact hmain

/-! ### Claim theorems -/

/-- A tiny concrete stand-in for `json.loads`, used by witnesses and
counterexamples: it decodes the handful of JSON texts appearing in the
concrete inputs and fails on everything else with a CPython-style message. -/
def loadsDemo (s : String) : Except String JVal :=
  if s = "[]" then Except.ok (JVal.arr [])
  else if s = "[\x7b\"src_ip\": \"1.2.3.4\", \"id\": 1\x7d]" then
    Except.ok (JVal.arr [JVal.obj [("src_ip", JVal.str "1.2.3.4"), ("id", JVal.num 1)]])
  else Except.error "Expecting value: line 1 column 1 (char 0)"

/-- C1: for every rule collection and allow-list of `AllowListEntry`
values (trimmed, non-empty strings), the collection produced by
`update_rules_in_row` begins with exactly one rule per entry, in
allow-list order; an entry matching the trimmed `src_ip` of some existing
rule reuses the first such rule (original collection order) with its
non-id fields unchanged, and an entry with no match becomes a fresh rule
with fields `enable=1, protocol="Any", permission="Allow",
interface_warning=0, port_option="Any", interface="All",
display_name="All"` and that entry as `src_ip`. -/
theorem C1_top_block_structure (loads : String → Except String JVal) (header row : List String)
    (ips : List String) (kid : Bool) (i : Nat) (raw : String) (rules : List JVal) (m : Int)
    (h1 : listIndex header "rules" = some i) (h2 : row.get? i = some raw)
    (h3 : parsesToList loads raw rules)
    (h4 : compute_max_id_any loads header row rules = Except.ok m)
    (hwf : ∀ ip ∈ ips, pyStrip ip = ip ∧ ip ≠ "") :
    ∃ out added skipped,
      update_rules_in_row loads header row ips kid =
        Except.ok (row.set i (dump_json_field (JVal.arr out)), added, skipped) ∧
      out.length = ips.length + (remainingRefs rules ips).length ∧
      ∀ k, k < ips.length →
        isObj (out.getD k JVal.null) = true ∧
        (match firstMatchIdx rules (ips.getD k "") with
         | some j => eraseId (out.getD k JVal.null) = eraseId (rules.getD j JVal.null)
         | none => eraseId (out.getD k JVal.null) = JVal.obj (buildAllowFields (ips.getD k ""))) := by
  refine ⟨(update_rules_core rules m ips kid).1, (update_rules_core rules m ips kid).2.1,
    (update_rules_core rules m ips kid).2.2,
    update_rules_in_row_eq loads header row ips kid i raw rules m h1 h2 h3 h4,
    update_rules_core_length rules m ips kid hwf, ?_⟩
  intro k hk
  exact update_rules_core_top rules m ips kid hwf k hk

/-- Witness for C1: one existing rule for `1.2.3.4`, allow-list
`["1.2.3.4", "9.9.9.9"]`. -/
theorem C1_top_block_structure_witness :
    listIndex ["rules"] "rules" = some 0 ∧
    (∃ out added skipped,
      update_rules_in_row loadsDemo ["rules"] ["[\x7b\"src_ip\": \"1.2.3.4\", \"id\": 1\x7d]"]
          ["1.2.3.4", "9.9.9.9"] false =
        Except.ok (["[\x7b\"src_ip\": \"1.2.3.4\", \"id\": 1\x7d]"].set 0
          (dump_json_field (JVal.arr out)), added, skipped) ∧
      out.length = (["1.2.3.4", "9.9.9.9"] : List String).length +
        (remainingRefs [JVal.obj [("src_ip", JVal.str "1.2.3.4"), ("id", JVal.num 1)]]
          ["1.2.3.4", "9.9.9.9"]).length ∧
      ∀ k, k < (["1.2.3.4", "9.9.9.9"] : List String).length →
        isObj (out.getD k JVal.null) = true ∧
        (match firstMatchIdx [JVal.obj [("src_ip", JVal.str "1.2.3.4"), ("id", JVal.num 1)]]
            ((["1.2.3.4", "9.9.9.9"] : List String).getD k "") with
         | some j => eraseId (out.getD k JVal.null) =
             eraseId ([JVal.obj [("src_ip", JVal.str "1.2.3.4"), ("id", JVal.num 1)]].getD j
               JVal.null)
         | none => eraseId (out.getD k JVal.null) =
             JVal.obj (buildAllowFields ((["1.2.3.4", "9.9.9.9"] : List String).getD k "")))) :=
  ⟨rfl,
    C1_top_block_structure loadsDemo ["rules"] ["[\x7b\"src_ip\": \"1.2.3.4\", \"id\": 1\x7d]"]
      ["1.2.3.4", "9.9.9.9"] false 0 "[\x7b\"src_ip\": \"1.2.3.4\", \"id\": 1\x7d]"
      [JVal.obj [("src_ip", JVal.str "1.2.3.4"), ("id", JVal.num 1)]] 1
      rfl rfl (Or.inl rfl) rfl (by decide)⟩

/-! ### No-duplicate-reference machinery for the sequential renumbering -/

theorem alookup_mem {β : Type} (k : String) (l : List (String × β)) (v : β)
    (h : alookup k l = some v) : (k, v) ∈ l := by
  induction l with
  | nil => simp at h
  | cons kv rest ih =>
    by_cases hk : kv.1 = k
    · simp only [alookup_cons, hk, if_true, Option.some.injEq] at h
      subst h
      rw [← hk]
      exact List.mem_cons_self _ _
    · simp only [alookup_cons, hk, if_false] at h
      exact List.mem_cons_of_mem _ (ih h)

theorem first_seen_go_mem (ip_set : List String) (rest : List JVal) (idx : Nat)
    (acc : List (String × Nat)) (kv : String × Nat)
    (h : kv ∈ first_seen_go ip_set rest idx acc) :
    kv ∈ acc ∨ kv.1 ∈ ip_set := by
  induction rest generalizing idx acc with
  | nil => exact Or.inl h
  | cons v vrest ih =>
    cases hsk : srcKey v with
    | none =>
      have hstep : first_seen_go ip_set (v :: vrest) idx acc =
          first_seen_go ip_set vrest (idx + 1) acc := by
        simp [first_seen_go, hsk]
      rw [hstep] at h
      exact ih (idx + 1) acc h
    | some key =>
      by_cases hcond : key ∈ ip_set ∧ (alookup key acc).isNone
      · have hstep : first_seen_go ip_set (v :: vrest) idx acc =
            first_seen_go ip_set vrest (idx + 1) (acc ++ [(key, idx)]) := by
          simp [first_seen_go, hsk, hcond]
        rw [hstep] at h
        rcases ih (idx + 1) (acc ++ [(key, idx)]) h with hacc | hset
        · rcases List.mem_append.mp hacc with h2 | h2
          · exact Or.inl h2
          · have : kv = (key, idx) := by simpa using h2
            subst this
            exact Or.inr hcond.1
        · exact Or.inr hset
      · have hstep : first_seen_go ip_set (v :: vrest) idx acc =
            first_seen_go ip_set vrest (idx + 1) acc := by
          simp only [first_seen_go, hsk]
          rw [if_neg hcond]
        rw [hstep] at h
        exact ih (idx + 1) acc h

theorem first_seen_map_lookup_mem (rules : List JVal) (ip_set : List String) (ip : String)
    (i : Nat) (h : alookup ip (first_seen_map rules ip_set) = some i) : ip ∈ ip_set := by
  have hmem := alookup_mem ip _ i h
  rcases first_seen_go_mem ip_set rules 0 [] (ip, i) hmem with hacc | hset
  · simp at hacc
  · exact hset

/-- A lookup hit in the `first_seen` map is exactly the first matching
rule's index. -/
theorem first_seen_map_some (rules : List JVal) (ip_set : List String) (ip : String) (i : Nat)
    (h : alookup ip (first_seen_map rules ip_set) = some i) :
    firstMatchIdx rules ip = some i := by
  have hip := first_seen_map_lookup_mem rules ip_set ip i h
  rw [← first_seen_map_lookup rules ip_set ip hip]
  exact h

theorem buildTop_refs_nodup (fs : List (String × Nat)) (base : Nat) (ips : List String)
    (hbelow : ∀ ip ∈ ips, ∀ i, alookup ip fs = some i → i < base)
    (hinj : ∀ ip1, ip1 ∈ ips → ∀ ip2, ip2 ∈ ips → ∀ i, alookup ip1 fs = some i →
      alookup ip2 fs = some i → ip1 = ip2)
    (hpair : ips.Pairwise (fun a b => a = b → alookup a fs = none)) :
    (buildTop fs base ips).refs.Nodup := by
  induction ips generalizing base with
  | nil => simp [buildTop]
  | cons ip rest ih =>
    have hpair2 := List.pairwise_cons.mp hpair
    cases hl : alookup ip fs with
    | some i =>
      simp only [buildTop, hl]
      rw [List.nodup_cons]
      constructor
      · intro hmem
        rcases buildTop_refs_mem fs base rest i hmem with ⟨ip2, hm2, hl2⟩ | ⟨hge, _⟩
        · have heq : ip = ip2 :=
            hinj ip (List.mem_cons_self _ _) ip2 (List.mem_cons_of_mem _ hm2) i hl hl2
          have hnone := hpair2.1 ip2 hm2 heq
          rw [heq] at hnone
          rw [hnone] at hl2
          cases hl2
        · have := hbelow ip (List.mem_cons_self _ _) i hl
          omega
      · exact ih base (fun a ha => hbelow a (List.mem_cons_of_mem _ ha))
          (fun a ha b hb => hinj a (List.mem_cons_of_mem _ ha) b (List.mem_cons_of_mem _ hb))
          hpair2.2
    | none =>
      simp only [buildTop, hl]
      rw [List.nodup_cons]
      constructor
      · intro hmem
        rcases buildTop_refs_mem fs (base + 1) rest base hmem with ⟨ip2, hm2, hl2⟩ | ⟨hge, _⟩
        · have := hbelow ip2 (List.mem_cons_of_mem _ hm2) base hl2
          omega
        · omega
      · exact ih (base + 1)
          (fun a ha i hi => by
            have := hbelow a (List.mem_cons_of_mem _ ha) i hi
            omega)
          (fun a ha b hb => hinj a (List.mem_cons_of_mem _ ha) b (List.mem_cons_of_mem _ hb))
          hpair2.2

/-- Sequential renumbering (`keep_ids = False`): when every item is a rule
object and no address that matches an existing rule is repeated in the
allow-list, the output ids are exactly `1..len(output)` in output order. -/
theorem update_rules_core_renumber (rules : List JVal) (m : Int) (ips : List String)
    (hwf : ∀ ip ∈ ips, pyStrip ip = ip ∧ ip ≠ "")
    (hobj : ∀ v ∈ rules, isObj v = true)
    (hpair : ips.Pairwise (fun a b => a = b → firstMatchIdx rules a = none)) :
    (update_rules_core rules m ips false).1.length =
      ips.length + (remainingRefs rules ips).length ∧
    ∀ k, k < (update_rules_core rules m ips false).1.length →
      idOf ((update_rules_core rules m ips false).1.getD k JVal.null) =
        some (JVal.num (1 + (k : Int))) := by
  have hip : ipOrderOf ips = ips := ipOrderOf_eq_self ips hwf
  rw [update_rules_core_def, hip]
  simp only []
  set fs := first_seen_map rules ips with hfs
  set t := buildTop fs rules.length ips with ht
  set rem := remainingRefs rules ips with hrem
  set store := rules ++ t.created with hstore
  have hreflen : t.refs.length = ips.length := buildTop_refs_length fs rules.length ips
  -- the reference list has no duplicates
  have hbelow : ∀ ip ∈ ips, ∀ i, alookup ip fs = some i → i < rules.length := by
    intro ip _ i hl
    exact (firstMatchIdx_spec rules ip i (first_seen_map_some rules ips ip i hl)).1
  have hinj : ∀ ip1, ip1 ∈ ips → ∀ ip2, ip2 ∈ ips → ∀ i, alookup ip1 fs = some i →
      alookup ip2 fs = some i → ip1 = ip2 := by
    intro ip1 _ ip2 _ i hl1 hl2
    have hs1 := (firstMatchIdx_spec rules ip1 i (first_seen_map_some rules ips ip1 i hl1)).2
    have hs2 := (firstMatchIdx_spec rules ip2 i (first_seen_map_some rules ips ip2 i hl2)).2
    rw [hs1] at hs2
    exact (Option.some.injEq _ _ ▸ hs2)
  have hpairfs : ips.Pairwise (fun a b => a = b → alookup a fs = none) := by
    refine hpair.imp ?_
    intro a b hab heq
    cases hl : alookup a fs with
    | none => rfl
    | some i =>
      have := first_seen_map_some rules ips a i hl
      rw [hab heq] at this
      cases this
  have htopnd : t.refs.Nodup := buildTop_refs_nodup fs rules.length ips hbelow hinj hpairfs
  have hremnd : rem.Nodup := remainingRefs_nodup rules ips
  have hdisj : t.refs.Disjoint rem := by
    intro j hj hj2
    rcases buildTop_refs_mem fs rules.length ips j hj with ⟨ip2, hm2, hl2⟩ | ⟨hge, _⟩
    · have hsk := (firstMatchIdx_spec rules ip2 j (first_seen_map_some rules ips ip2 j hl2)).2
      exact (remainingRefs_mem rules ips j hj2).2 ip2 hsk hm2
    · have := remainingRefs_lt rules ips j hj2
      omega
  have hnd : (t.refs ++ rem).Nodup := List.Nodup.append htopnd hremnd hdisj
  -- every referenced store slot is a rule object
  have hcreated : t.created =
      (ips.filter (fun ip => (alookup ip fs).isNone)).map (fun ip => build_allow_rule ip 0) :=
    buildTop_created fs rules.length ips
  have hclen : t.created.length = ips.countP (fun ip => (alookup ip fs).isNone) := by
    rw [hcreated, List.length_map, ← List.countP_eq_length_filter]
  have hstobj : ∀ r ∈ t.refs ++ rem, isObj (store.getD r JVal.null) = true := by
    intro r hr
    rcases List.mem_append.mp hr with hr | hr
    · rcases buildTop_refs_mem fs rules.length ips r hr with ⟨ip2, hm2, hl2⟩ | ⟨hge, hlt⟩
      · obtain ⟨hjlt, hsk⟩ := firstMatchIdx_spec rules ip2 r (first_seen_map_some rules ips ip2 r hl2)
        rw [hstore, getD_append_left _ _ r JVal.null hjlt]
        exact srcKey_isObj _ _ hsk
      · obtain ⟨j, hj⟩ : ∃ j, r = rules.length + j ∧ j < t.created.length := by
          exact ⟨r - rules.length, by omega, by omega⟩
        rw [hstore, hj.1, getD_append_right]
        rw [hcreated,
          map_getD_lt _ _ j JVal.null "" (by rw [← List.length_map, ← hcreated]; exact hj.2)]
        rfl
    · have hlt := remainingRefs_lt rules ips r hr
      rw [hstore, getD_append_left _ _ r JVal.null hlt]
      exact hobj _ (getD_mem rules r JVal.null hlt)
  constructor
  · simp [hreflen]
  · intro k hk
    have hk2 : k < (t.refs ++ rem).length := by simpa using hk
    have hout : ((t.refs ++ rem).map
          (fun r => (assignSeq store (t.refs ++ rem) 1).getD r JVal.null)).getD k JVal.null =
        (assignSeq store (t.refs ++ rem) 1).getD ((t.refs ++ rem).getD k 0) JVal.null :=
      map_getD_lt _ _ k JVal.null 0 hk2
    have hengine := assignSeq_getD_nodup store (t.refs ++ rem) 1 k hnd hk2
    have hrk : isObj (store.getD ((t.refs ++ rem).getD k 0) JVal.null) = true :=
      hstobj _ (getD_mem _ k 0 hk2)
    obtain ⟨d, hd⟩ := (isObj_iff _).mp hrk
    rw [hd] at hengine
    have hcnt : ((t.refs ++ rem).take k).countP
        (fun r => isObj (store.getD r JVal.null)) = k := by
      have hall : ∀ r ∈ (t.refs ++ rem).take k, isObj (store.getD r JVal.null) = true := by
        intro r hr
        exact hstobj r (List.take_subset _ _ hr)
      rw [List.countP_eq_length.mpr hall, List.length_take]
      omega
    rw [hcnt] at hengine
    simp only [Bool.false_eq_true, if_false]
    rw [hout, hengine]
    simp only [idOf, lookup_dictSetId_id]

/-- C2 counterexample: the allow-list `["1.2.3.4", "1.2.3.4"]` repeats an
address that matches the one existing rule.  Python appends the *same*
dict object twice, so the sequential renumbering writes id 1 and then id 2
into that one shared object: the output reads ids `[2, 2]`, not `[1, 2]`
— the first output rule's id is 2, not 1. -/
theorem C2_sequential_ids_counterexample :
    update_rules_in_row loadsDemo ["rules"] ["[\x7b\"src_ip\": \"1.2.3.4\", \"id\": 1\x7d]"]
        ["1.2.3.4", "1.2.3.4"] false =
      Except.ok
        (["[\x7b\"src_ip\": \"1.2.3.4\", \"id\": 2\x7d, \x7b\"src_ip\": \"1.2.3.4\", \"id\": 2\x7d]"],
         0, 2) ∧
    (update_rules_core [JVal.obj [("src_ip", JVal.str "1.2.3.4"), ("id", JVal.num 1)]] 1
        ["1.2.3.4", "1.2.3.4"] false).1.length = 2 ∧
    ¬ idOf ((update_rules_core [JVal.obj [("src_ip", JVal.str "1.2.3.4"), ("id", JVal.num 1)]] 1
        ["1.2.3.4", "1.2.3.4"] false).1.getD 0 JVal.null) = some (JVal.num 1) := by
  refine ⟨rfl, rfl, ?_⟩
  intro h
  have h2 : some (JVal.num 2) = some (JVal.num 1) := by
    calc some (JVal.num 2)
        = idOf ((update_rules_core
            [JVal.obj [("src_ip", JVal.str "1.2.3.4"), ("id", JVal.num 1)]] 1
            ["1.2.3.4", "1.2.3.4"] false).1.getD 0 JVal.null) := rfl
      _ = some (JVal.num 1) := h
  injection h2 with h3
  injection h3 with h4
  exact absurd h4 (by decide)

/-- C2 (amended): when `keep_ids` is false, every item is a rule object,
and no allow-list entry that matches an existing rule occurs more than
once (after trimming), every rule in the produced collection is renumbered
sequentially starting at 1 in final order, so the output ids are exactly
`1..len(output)`, with no gaps or repeats, in output order. -/
theorem C2_sequential_ids_amended (loads : String → Except String JVal)
    (header row : List String) (ips : List String) (i : Nat) (raw : String)
    (rules : List JVal) (m : Int)
    (h1 : listIndex header "rules" = some i) (h2 : row.get? i = some raw)
    (h3 : parsesToList loads raw rules)
    (h4 : compute_max_id_any loads header row rules = Except.ok m)
    (hwf : ∀ ip ∈ ips, pyStrip ip = ip ∧ ip ≠ "")
    (hobj : ∀ v ∈ rules, isObj v = true)
    (hpair : ips.Pairwise (fun a b => a = b → firstMatchIdx rules a = none)) :
    ∃ out added skipped,
      update_rules_in_row loads header row ips false =
        Except.ok (row.set i (dump_json_field (JVal.arr out)), added, skipped) ∧
      out.length = ips.length + (remainingRefs rules ips).length ∧
      ∀ k, k < out.length →
        idOf (out.getD k JVal.null) = some (JVal.num (1 + (k : Int))) := by
  obtain ⟨hlen, hids⟩ := update_rules_core_renumber rules m ips hwf hobj hpair
  exact ⟨(update_rules_core rules m ips false).1, (update_rules_core rules m ips false).2.1,
    (update_rules_core rules m ips false).2.2,
    update_rules_in_row_eq loads header row ips false i raw rules m h1 h2 h3 h4,
    hlen, hids⟩

/-- Witness for the amended C2. -/
theorem C2_sequential_ids_amended_witness :
    (∀ v ∈ [JVal.obj [("src_ip", JVal.str "1.2.3.4"), ("id", JVal.num 1)]], isObj v = true) ∧
    (∃ out added skipped,
      update_rules_in_row loadsDemo ["rules"] ["[\x7b\"src_ip\": \"1.2.3.4\", \"id\": 1\x7d]"]
          ["1.2.3.4", "9.9.9.9"] false =
        Except.ok (["[\x7b\"src_ip\": \"1.2.3.4\", \"id\": 1\x7d]"].set 0
          (dump_json_field (JVal.arr out)), added, skipped) ∧
      out.length = (["1.2.3.4", "9.9.9.9"] : List String).length +
        (remainingRefs [JVal.obj [("src_ip", JVal.str "1.2.3.4"), ("id", JVal.num 1)]]
          ["1.2.3.4", "9.9.9.9"]).length ∧
      ∀ k, k < out.length →
        idOf (out.getD k JVal.null) = some (JVal.num (1 + (k : Int)))) :=
  ⟨by decide,
    C2_sequential_ids_amended loadsDemo ["rules"] ["[\x7b\"src_ip\": \"1.2.3.4\", \"id\": 1\x7d]"]
      ["1.2.3.4", "9.9.9.9"] 0 "[\x7b\"src_ip\": \"1.2.3.4\", \"id\": 1\x7d]"
      [JVal.obj [("src_ip", JVal.str "1.2.3.4"), ("id", JVal.num 1)]] 1
      rfl rfl (Or.inl rfl) rfl (by decide) (by decide) (by decide)⟩

/-! ### Keep-ids machinery -/

theorem getD_range (n k : Nat) (h : k < n) : (List.range n).getD k 0 = k := by
  rw [List.getD_eq_getElem _ _ (by simpa using h)]
  simp

theorem compute_max_id_any_ge (loads : String → Except String JVal) (header row : List String)
    (rules : List JVal) (m : Int)
    (h : compute_max_id_any loads header row rules = Except.ok m) :
    collect_max_id rules ≤ m := by
  unfold compute_max_id_any at h
  cases h5 : listIndex header "rulesv6" with
  | none =>
    simp only [h5, Except.ok.injEq] at h
    omega
  | some i6 =>
    simp only [h5] at h
    cases h6 : row.get? i6 with
    | none =>
      simp only [h6] at h
      exact (Except.noConfusion h)
    | some raw6 =>
      simp only [h6] at h
      cases h7 : parse_json_field loads raw6 with
      | error e =>
        simp only [h7, Except.ok.injEq] at h
        omega
      | ok v =>
        simp only [h7] at h
        cases v <;> simp only [Except.ok.injEq] at h <;> rw [← h] <;>
          simp [le_max_left]

/-- `keep_ids = True`: a matched entry carries its first-seen rule wholly
unchanged (ids included); an unmatched entry becomes a fresh rule whose id
is `max_id_any + 1` plus the number of unmatched entries before it. -/
theorem update_rules_core_keep (rules : List JVal) (m : Int) (ips : List String)
    (hwf : ∀ ip ∈ ips, pyStrip ip = ip ∧ ip ≠ "") (k : Nat) (hk : k < ips.length) :
    (match firstMatchIdx rules (ips.getD k "") with
     | some j =>
       (update_rules_core rules m ips true).1.getD k JVal.null = rules.getD j JVal.null
     | none =>
       (update_rules_core rules m ips true).1.getD k JVal.null =
         build_allow_rule (ips.getD k "")
           (m + 1 +
             (((ips.take k).countP (fun ip => (firstMatchIdx rules ip).isNone) : Nat) : Int))) := by
  have hip : ipOrderOf ips = ips := ipOrderOf_eq_self ips hwf
  rw [update_rules_core_def, hip]
  simp only []
  set fs := first_seen_map rules ips with hfs
  set t := buildTop fs rules.length ips with ht
  set rem := remainingRefs rules ips with hrem
  set store := rules ++ t.created with hstore
  set createdRefs := (List.range t.created.length).map (fun j => rules.length + j)
    with hcrefs
  simp only [eq_self_iff_true, if_true]
  have hreflen : t.refs.length = ips.length := buildTop_refs_length fs rules.length ips
  have hklt : k < (t.refs ++ rem).length := by
    rw [List.length_append, hreflen]
    omega
  have hout : ((t.refs ++ rem).map
        (fun r => (assignSeq store createdRefs (m + 1)).getD r JVal.null)).getD k JVal.null =
      (assignSeq store createdRefs (m + 1)).getD ((t.refs ++ rem).getD k 0) JVal.null :=
    map_getD_lt _ _ k JVal.null 0 hklt
  have hentry : (t.refs ++ rem).getD k 0 = t.refs.getD k 0 :=
    getD_append_left _ _ k 0 (by omega)
  have hfsk : alookup (ips.getD k "") fs = firstMatchIdx rules (ips.getD k "") :=
    first_seen_map_lookup rules ips (ips.getD k "") (getD_mem ips k "" hk)
  have hrefk := buildTop_refs_getD fs rules.length ips k hk
  have hcreated : t.created =
      (ips.filter (fun ip => (alookup ip fs).isNone)).map (fun ip => build_allow_rule ip 0) :=
    buildTop_created fs rules.length ips
  have hcrefs_mem : ∀ r ∈ createdRefs, rules.length ≤ r := by
    intro r hr
    rw [hcrefs] at hr
    obtain ⟨j, _, hj2⟩ := List.mem_map.mp hr
    omega
  cases hfm : firstMatchIdx rules (ips.getD k "") with
  | some j =>
    obtain ⟨hjlt, _⟩ := firstMatchIdx_spec rules (ips.getD k "") j hfm
    have hrj : t.refs.getD k 0 = j := by
      rw [hrefk, hfsk, hfm]
    have hnot : j ∉ createdRefs := by
      intro hmem
      have := hcrefs_mem j hmem
      omega
    rw [hout, hentry, hrj, assignSeq_getD_not_mem _ _ _ _ hnot, hstore,
      getD_append_left _ _ j JVal.null hjlt]
  | none =>
    have hpk : (fun ip => (alookup ip fs).isNone) (ips.getD k "") = true := by
      simp only [hfsk, hfm, Option.isNone_none]
    have hrj : t.refs.getD k 0 =
        rules.length + (ips.take k).countP (fun ip => (alookup ip fs).isNone) := by
      rw [hrefk, hfsk, hfm]
    set cB := (ips.take k).countP (fun ip => (alookup ip fs).isNone) with hcB
    have hclen : t.created.length = ips.countP (fun ip => (alookup ip fs).isNone) := by
      rw [hcreated, List.length_map, ← List.countP_eq_length_filter]
    have hcblt : cB < t.created.length := by
      rw [hclen]
      exact countP_take_lt _ ips k "" hk hpk
    have hfilget : (ips.filter (fun ip => (alookup ip fs).isNone)).getD cB "" = ips.getD k "" :=
      filter_getD_countP _ ips k "" hk hpk
    have hcreatedk : t.created.getD cB JVal.null = build_allow_rule (ips.getD k "") 0 := by
      rw [hcreated, map_getD_lt _ _ cB JVal.null ""
        (by rw [← List.length_map, ← hcreated]; exact hcblt), hfilget]
    have hstk : store.getD (rules.length + cB) JVal.null =
        build_allow_rule (ips.getD k "") 0 := by
      rw [hstore, getD_append_right, hcreatedk]
    have hcndp : createdRefs.Nodup := by
      rw [hcrefs]
      exact (List.nodup_range _).map (fun a b h => by omega)
    have hcrefk : createdRefs.getD cB 0 = rules.length + cB := by
      rw [hcrefs, map_getD_lt _ _ cB 0 0 (by simpa using hcblt), getD_range _ _ hcblt]
    have hcblt2 : cB < createdRefs.length := by
      rw [hcrefs]
      simpa using hcblt
    have hengine := assignSeq_getD_nodup store createdRefs (m + 1) cB hcndp hcblt2
    rw [hcrefk] at hengine
    rw [hstk] at hengine
    have htake : createdRefs.take cB = (List.range cB).map (fun j => rules.length + j) := by
      rw [hcrefs, ← List.map_take, List.take_range]
      have hmin : min cB t.created.length = cB := by omega
      rw [hmin]
    have hcnt : (createdRefs.take cB).countP
        (fun r => isObj (store.getD r JVal.null)) = cB := by
      have hall : ∀ r ∈ createdRefs.take cB, isObj (store.getD r JVal.null) = true := by
        intro r hr
        rw [htake] at hr
        obtain ⟨j2, hj2m, hj2e⟩ := List.mem_map.mp hr
        have hj2lt : j2 < cB := List.mem_range.mp hj2m
        have hj2c : j2 < t.created.length := by omega
        have hstj2 : store.getD r JVal.null = t.created.getD j2 JVal.null := by
          rw [hstore, ← hj2e, getD_append_right]
        rw [hstj2, hcreated, map_getD_lt _ _ j2 JVal.null ""
          (by rw [← List.length_map, ← hcreated]; exact hj2c)]
        rfl
      rw [List.countP_eq_length.mpr hall, List.length_take]
      omega
    rw [hcnt] at hengine
    have hcBconv : cB = (ips.take k).countP (fun ip => (firstMatchIdx rules ip).isNone) := by
      rw [hcB]
      apply countP_congr_on
      intro x hx
      rw [first_seen_map_lookup rules ips x (List.take_subset _ _ hx)]
    rw [hout, hentry, hrj]
    rw [show build_allow_rule (ips.getD k "") 0 =
      JVal.obj (buildAllowFields (ips.getD k "") ++ [("id", JVal.num 0)]) from rfl] at hengine
    rw [hengine]
    simp only [dictSetId_build_allow_rule]
    rw [← hcBconv]
    rfl

/-- C3: with `keep_ids` true, `update_rules_in_row` leaves every reused
rule wholly untouched (its id included), and each newly synthesized rule
receives a fresh id, strictly increasing in allow-list order, starting at
`max_id_any + 1`, where `max_id_any` is the maximum id the code observes
across the `rules` collection and (when present and list-valued) the
`rulesv6` collection before processing (the bookkeeping starts from 0, so
`max_id_any` is at least the value of every observed id). -/
theorem C3_keep_ids_fresh (loads : String → Except String JVal) (header row : List String)
    (ips : List String) (i : Nat) (raw : String) (rules : List JVal) (m : Int)
    (h1 : listIndex header "rules" = some i) (h2 : row.get? i = some raw)
    (h3 : parsesToList loads raw rules)
    (h4 : compute_max_id_any loads header row rules = Except.ok m)
    (hwf : ∀ ip ∈ ips, pyStrip ip = ip ∧ ip ≠ "") :
    ∃ out added skipped,
      update_rules_in_row loads header row ips true =
        Except.ok (row.set i (dump_json_field (JVal.arr out)), added, skipped) ∧
      collect_max_id rules ≤ m ∧
      ∀ k, k < ips.length →
        (match firstMatchIdx rules (ips.getD k "") with
         | some j => out.getD k JVal.null = rules.getD j JVal.null
         | none =>
           out.getD k JVal.null =
             build_allow_rule (ips.getD k "")
               (m + 1 +
                 (((ips.take k).countP (fun ip => (firstMatchIdx rules ip).isNone) : Nat) :
                   Int))) := by
  refine ⟨(update_rules_core rules m ips true).1, (update_rules_core rules m ips true).2.1,
    (update_rules_core rules m ips true).2.2,
    update_rules_in_row_eq loads header row ips true i raw rules m h1 h2 h3 h4,
    compute_max_id_any_ge loads header row rules m h4, ?_⟩
  intro k hk
  exact update_rules_core_keep rules m ips hwf k hk

/-- Witness for C3: the existing rule for `1.2.3.4` (id 1) is reused
untouched; `9.9.9.9` gets the fresh id 2 = max_id_any + 1. -/
theorem C3_keep_ids_fresh_witness :
    listIndex ["rules"] "rules" = some 0 ∧
    (∃ out added skipped,
      update_rules_in_row loadsDemo ["rules"] ["[\x7b\"src_ip\": \"1.2.3.4\", \"id\": 1\x7d]"]
          ["1.2.3.4", "9.9.9.9"] true =
        Except.ok (["[\x7b\"src_ip\": \"1.2.3.4\", \"id\": 1\x7d]"].set 0
          (dump_json_field (JVal.arr out)), added, skipped) ∧
      collect_max_id [JVal.obj [("src_ip", JVal.str "1.2.3.4"), ("id", JVal.num 1)]] ≤ 1 ∧
      ∀ k, k < (["1.2.3.4", "9.9.9.9"] : List String).length →
        (match firstMatchIdx [JVal.obj [("src_ip", JVal.str "1.2.3.4"), ("id", JVal.num 1)]]
            ((["1.2.3.4", "9.9.9.9"] : List String).getD k "") with
         | some j =>
           out.getD k JVal.null =
             [JVal.obj [("src_ip", JVal.str "1.2.3.4"), ("id", JVal.num 1)]].getD j JVal.null
         | none =>
           out.getD k JVal.null =
             build_allow_rule ((["1.2.3.4", "9.9.9.9"] : List String).getD k "")
               (1 + 1 +
                 ((((["1.2.3.4", "9.9.9.9"] : List String).take k).countP
                   (fun ip => (firstMatchIdx
                     [JVal.obj [("src_ip", JVal.str "1.2.3.4"), ("id", JVal.num 1)]]
                     ip).isNone) : Nat) : Int)))) :=
  ⟨rfl,
    C3_keep_ids_fresh loadsDemo ["rules"] ["[\x7b\"src_ip\": \"1.2.3.4\", \"id\": 1\x7d]"]
      ["1.2.3.4", "9.9.9.9"] 0 "[\x7b\"src_ip\": \"1.2.3.4\", \"id\": 1\x7d]"
      [JVal.obj [("src_ip", JVal.str "1.2.3.4"), ("id", JVal.num 1)]] 1
      rfl rfl (Or.inl rfl) rfl (by decide)⟩

/-! ### Counters -/

theorem update_rules_core_counts (rules : List JVal) (m : Int) (ips : List String)
    (kid : Bool) (hwf : ∀ ip ∈ ips, pyStrip ip = ip ∧ ip ≠ "") :
    (update_rules_core rules m ips kid).2.1 =
      ips.countP (fun ip => (firstMatchIdx rules ip).isNone) ∧
    (update_rules_core rules m ips kid).2.2 =
      ips.countP (fun ip => (firstMatchIdx rules ip).isSome) := by
  rw [update_rules_core_def, ipOrderOf_eq_self ips hwf]
  simp only []
  constructor
  · rw [buildTop_added]
    apply countP_congr_on
    intro ip hip
    rw [first_seen_map_lookup rules ips ip hip]
  · rw [buildTop_skipped]
    apply countP_congr_on
    intro ip hip
    rw [first_seen_map_lookup rules ips ip hip]

/-- C5: the `(added, skipped)` pair returned by `update_rules_in_row`
counts the allow-list entries with no pre-existing matching rule
(`added`) and those that matched one (`skipped`); in particular a list of
entries disjoint from all existing trimmed `src_ip`s yields
`added = N, skipped = 0`.  The same pair is what `process` propagates to
its caller. -/
theorem C5_added_skipped_counts (loads : String → Except String JVal) (header row : List String)
    (ips : List String) (kid : Bool) (i : Nat) (raw : String) (rules : List JVal) (m : Int)
    (h1 : listIndex header "rules" = some i) (h2 : row.get? i = some raw)
    (h3 : parsesToList loads raw rules)
    (h4 : compute_max_id_any loads header row rules = Except.ok m)
    (hwf : ∀ ip ∈ ips, pyStrip ip = ip ∧ ip ≠ "") :
    ∃ row2 added skipped,
      update_rules_in_row loads header row ips kid = Except.ok (row2, added, skipped) ∧
      added = ips.countP (fun ip => (firstMatchIdx rules ip).isNone) ∧
      skipped = ips.countP (fun ip => (firstMatchIdx rules ip).isSome) ∧
      ((∀ ip ∈ ips, firstMatchIdx rules ip = none) →
        added = ips.length ∧ skipped = 0) ∧
      (∀ fsys csvp ipp outp inpl mb rest content ipc fs2 a2 s2,
        fsRead fsys csvp = some content →
        csvParse (stripBOM content) = header :: row :: rest →
        fsRead fsys ipp = some ipc →
        read_ip_list_str ipc = ips →
        process loads fsys csvp ipp outp inpl mb kid = Except.ok (fs2, a2, s2) →
        a2 = added ∧ s2 = skipped) := by
  obtain ⟨hadd, hskip⟩ := update_rules_core_counts rules m ips kid hwf
  have hupd := update_rules_in_row_eq loads header row ips kid i raw rules m h1 h2 h3 h4
  refine ⟨_, _, _, hupd, hadd, hskip, ?_, ?_⟩
  · intro hnone
    constructor
    · rw [hadd, List.countP_eq_length]
      intro ip hip
      simp [hnone ip hip]
    · rw [hskip, List.countP_eq_zero]
      intro ip hip
      simp [hnone ip hip]
  · intro fsys csvp ipp outp inpl mb rest content ipc fs2 a2 s2 hc1 hc2 hc3 hc4 hproc
    unfold process at hproc
    simp only [hc1, hc2, hc3, hc4, hupd, Except.ok.injEq, Prod.mk.injEq] at hproc
    exact ⟨hproc.2.1.symm, hproc.2.2.symm⟩

/-- Witness for C5. -/
theorem C5_added_skipped_counts_witness :
    (["[\x7b\"src_ip\": \"1.2.3.4\", \"id\": 1\x7d]"] : List String).get? 0 =
      some "[\x7b\"src_ip\": \"1.2.3.4\", \"id\": 1\x7d]" ∧
    (∃ row2 added skipped,
      update_rules_in_row loadsDemo ["rules"] ["[\x7b\"src_ip\": \"1.2.3.4\", \"id\": 1\x7d]"]
          ["9.9.9.9"] false = Except.ok (row2, added, skipped) ∧
      added = (["9.9.9.9"] : List String).countP
        (fun ip => (firstMatchIdx [JVal.obj [("src_ip", JVal.str "1.2.3.4"), ("id", JVal.num 1)]]
          ip).isNone) ∧
      skipped = (["9.9.9.9"] : List String).countP
        (fun ip => (firstMatchIdx [JVal.obj [("src_ip", JVal.str "1.2.3.4"), ("id", JVal.num 1)]]
          ip).isSome) ∧
      ((∀ ip ∈ (["9.9.9.9"] : List String),
          firstMatchIdx [JVal.obj [("src_ip", JVal.str "1.2.3.4"), ("id", JVal.num 1)]] ip =
            none) →
        added = (["9.9.9.9"] : List String).length ∧ skipped = 0) ∧
      (∀ fsys csvp ipp outp inpl mb rest content ipc fs2 a2 s2,
        fsRead fsys csvp = some content →
        csvParse (stripBOM content) = ["rules"] ::
          ["[\x7b\"src_ip\": \"1.2.3.4\", \"id\": 1\x7d]"] :: rest →
        fsRead fsys ipp = some ipc →
        read_ip_list_str ipc = ["9.9.9.9"] →
        process loadsDemo fsys csvp ipp outp inpl mb false = Except.ok (fs2, a2, s2) →
        a2 = added ∧ s2 = skipped)) :=
  ⟨rfl,
    C5_added_skipped_counts loadsDemo ["rules"] ["[\x7b\"src_ip\": \"1.2.3.4\", \"id\": 1\x7d]"]
      ["9.9.9.9"] false 0 "[\x7b\"src_ip\": \"1.2.3.4\", \"id\": 1\x7d]"
      [JVal.obj [("src_ip", JVal.str "1.2.3.4"), ("id", JVal.num 1)]] 1
      rfl rfl (Or.inl rfl) rfl (by decide)⟩

/-! ### Per-address uniqueness in the output -/

theorem srcKey_assignSeq (store : List JVal) (refs : List Nat) (n : Int) (r : Nat) :
    srcKey ((assignSeq store refs n).getD r JVal.null) = srcKey (store.getD r JVal.null) := by
  rw [← srcKey_eraseId, assignSeq_getD_eraseId, srcKey_eraseId]

/-- The `srcKey`s of the top block are exactly the allow-list entries (in
order), and every remaining rule's `srcKey` avoids the allow set: each
allow-listed address therefore occurs exactly once when the trimmed list
has no duplicates. -/
theorem update_rules_core_srcKey_count (rules : List JVal) (m : Int) (ips : List String)
    (kid : Bool) (hwf : ∀ ip ∈ ips, pyStrip ip = ip ∧ ip ≠ "") (hnd : ips.Nodup)
    (a : String) (ha : a ∈ ips) :
    (update_rules_core rules m ips kid).1.countP (fun v => srcKey v == some a) = 1 := by
  have hip : ipOrderOf ips = ips := ipOrderOf_eq_self ips hwf
  rw [update_rules_core_def, hip]
  simp only []
  set fs := first_seen_map rules ips with hfs
  set t := buildTop fs rules.length ips with ht
  set rem := remainingRefs rules ips with hrem
  set store := rules ++ t.created with hstore
  set store' :=
    (if kid then
      assignSeq store ((List.range t.created.length).map (fun j => rules.length + j)) (m + 1)
    else
      assignSeq store (t.refs ++ rem) 1) with hstore'
  have hreflen : t.refs.length = ips.length := buildTop_refs_length fs rules.length ips
  have hsk' : ∀ r : Nat, srcKey (store'.getD r JVal.null) = srcKey (store.getD r JVal.null) := by
    intro r
    rw [hstore']
    by_cases hkid : kid
    · simp only [hkid, if_true]
      exact srcKey_assignSeq _ _ _ r
    · simp only [hkid, if_false]
      exact srcKey_assignSeq _ _ _ r
  rw [List.countP_map, List.countP_append]
  have hcreated : t.created =
      (ips.filter (fun ip => (alookup ip fs).isNone)).map (fun ip => build_allow_rule ip 0) :=
    buildTop_created fs rules.length ips
  -- remaining part contributes nothing
  have hremzero : rem.countP
      ((fun v => srcKey v == some a) ∘ fun r => store'.getD r JVal.null) = 0 := by
    rw [List.countP_eq_zero]
    intro r hr
    obtain ⟨hlt, hkey⟩ := remainingRefs_mem rules ips r hr
    simp only [Function.comp_apply, hsk' r, hstore, getD_append_left _ _ r JVal.null hlt]
    cases hv : srcKey (rules.getD r JVal.null) with
    | none => simp
    | some key =>
      simp only [beq_iff_eq, Option.some.injEq]
      intro hc
      subst hc
      exact (hkey key hv) ha
  -- the top block's srcKeys are exactly the allow-list entries, in order
  have hmapeq : t.refs.map (fun r => srcKey (store.getD r JVal.null)) = ips.map some := by
    apply List.ext_getElem
    · simp [hreflen]
    · intro k h1 h2
      have hk : k < ips.length := by simpa using h2
      have hrk : k < t.refs.length := by simpa [hreflen] using hk
      rw [List.getElem_map, List.getElem_map]
      rw [← List.getD_eq_getElem _ 0 hrk, ← List.getD_eq_getElem _ "" hk]
      have hrefk := buildTop_refs_getD fs rules.length ips k hk
      have hfsk : alookup (ips.getD k "") fs = firstMatchIdx rules (ips.getD k "") :=
        first_seen_map_lookup rules ips (ips.getD k "") (getD_mem ips k "" hk)
      cases hfm : firstMatchIdx rules (ips.getD k "") with
      | some j =>
        obtain ⟨hjlt, hsk⟩ := firstMatchIdx_spec rules (ips.getD k "") j hfm
        rw [hrefk, hfsk, hfm, hstore, getD_append_left _ _ j JVal.null hjlt, hsk]
      | none =>
        have hpk : (fun ip => (alookup ip fs).isNone) (ips.getD k "") = true := by
          simp only [hfsk, hfm, Option.isNone_none]
        set cB := (ips.take k).countP (fun ip => (alookup ip fs).isNone) with hcB
        have hclen : t.created.length = ips.countP (fun ip => (alookup ip fs).isNone) := by
          rw [hcreated, List.length_map, ← List.countP_eq_length_filter]
        have hcblt : cB < t.created.length := by
          rw [hclen]
          exact countP_take_lt _ ips k "" hk hpk
        have hfilget : (ips.filter (fun ip => (alookup ip fs).isNone)).getD cB "" =
            ips.getD k "" := filter_getD_countP _ ips k "" hk hpk
        rw [hrefk, hfsk, hfm, hstore, getD_append_right, hcreated,
          map_getD_lt _ _ cB JVal.null ""
            (by rw [← List.length_map, ← hcreated]; exact hcblt), hfilget]
        have hstrip : pyStrip (ips.getD k "") = ips.getD k "" :=
          (hwf _ (getD_mem ips k "" hk)).1
        have hstrip2 : pyStrip (ips[k]?.getD "") = ips[k]?.getD "" := by
          simpa [List.getD] using hstrip
        simp [srcKey, build_allow_rule, buildAllowFields, alookup_append, hstrip2]
  have htopone : t.refs.countP
      ((fun v => srcKey v == some a) ∘ fun r => store'.getD r JVal.null) = 1 := by
    have hcomp : t.refs.countP
        ((fun v => srcKey v == some a) ∘ fun r => store'.getD r JVal.null) =
        t.refs.countP (fun r => srcKey (store.getD r JVal.null) == some a) := by
      apply countP_congr_on
      intro r _
      have h2 : srcKey (store'[r]?.getD JVal.null) = srcKey (store[r]?.getD JVal.null) := by
        simpa [List.getD] using hsk' r
      simp [h2]
    rw [hcomp]
    have : t.refs.countP (fun r => srcKey (store.getD r JVal.null) == some a) =
        (t.refs.map (fun r => srcKey (store.getD r JVal.null))).countP
          (fun o => o == some a) := by
      rw [List.countP_map]
      rfl
    rw [this, hmapeq, List.countP_map]
    have : ips.countP ((fun o => o == some a) ∘ some) = ips.countP (fun ip => ip == a) := by
      apply countP_congr_on
      intro x _
      simp
    rw [this]
    have hcount : ips.count a = 1 := List.count_eq_one_of_mem hnd ha
    simpa [List.count] using hcount
  rw [htopone, hremzero]

/-- Decoder for the C4 witness input: two existing rules that share the
address `1.2.3.4`. -/
def loadsDemoDup (s : String) : Except String JVal :=
  if s = "[\x7b\"src_ip\": \"1.2.3.4\", \"id\": 1\x7d, \x7b\"src_ip\": \"1.2.3.4\", \"id\": 9\x7d]"
  then
    Except.ok (JVal.arr
      [JVal.obj [("src_ip", JVal.str "1.2.3.4"), ("id", JVal.num 1)],
       JVal.obj [("src_ip", JVal.str "1.2.3.4"), ("id", JVal.num 9)]])
  else Except.error "Expecting value: line 1 column 1 (char 0)"

/-- C4 counterexample: with the duplicated allow entry `1.2.3.4`, the
output carries that address twice (the reused rule object appears at both
of the first two positions), so the count of rules with that trimmed
`src_ip` is 2, not 1. -/
theorem C4_unique_address_counterexample :
    update_rules_in_row loadsDemo ["rules"] ["[\x7b\"src_ip\": \"1.2.3.4\", \"id\": 1\x7d]"]
        ["1.2.3.4", "1.2.3.4"] false =
      Except.ok
        (["[\x7b\"src_ip\": \"1.2.3.4\", \"id\": 2\x7d, \x7b\"src_ip\": \"1.2.3.4\", \"id\": 2\x7d]"],
         0, 2) ∧
    (update_rules_core [JVal.obj [("src_ip", JVal.str "1.2.3.4"), ("id", JVal.num 1)]] 1
        ["1.2.3.4", "1.2.3.4"] false).1.countP (fun v => srcKey v == some "1.2.3.4") = 2 ∧
    ¬ (update_rules_core [JVal.obj [("src_ip", JVal.str "1.2.3.4"), ("id", JVal.num 1)]] 1
        ["1.2.3.4", "1.2.3.4"] false).1.countP (fun v => srcKey v == some "1.2.3.4") = 1 := by
  refine ⟨rfl, rfl, ?_⟩
  intro h
  have h2 : (2 : Nat) = 1 := by
    calc (2 : Nat)
        = (update_rules_core [JVal.obj [("src_ip", JVal.str "1.2.3.4"), ("id", JVal.num 1)]] 1
            ["1.2.3.4", "1.2.3.4"] false).1.countP (fun v => srcKey v == some "1.2.3.4") := rfl
      _ = 1 := h
  exact absurd h2 (by decide)

/-- C4 (amended): when the trimmed allow-list has no duplicate entries,
the collection produced by `update_rules_in_row` contains exactly one rule
whose trimmed `src_ip` equals each allow-listed address — in particular,
duplicate existing rules for an allow-listed address are dropped down to
the single reused one. -/
theorem C4_unique_address_amended (loads : String → Except String JVal)
    (header row : List String) (ips : List String) (kid : Bool) (i : Nat) (raw : String)
    (rules : List JVal) (m : Int)
    (h1 : listIndex header "rules" = some i) (h2 : row.get? i = some raw)
    (h3 : parsesToList loads raw rules)
    (h4 : compute_max_id_any loads header row rules = Except.ok m)
    (hwf : ∀ ip ∈ ips, pyStrip ip = ip ∧ ip ≠ "") (hnd : ips.Nodup) :
    ∃ out added skipped,
      update_rules_in_row loads header row ips kid =
        Except.ok (row.set i (dump_json_field (JVal.arr out)), added, skipped) ∧
      ∀ a ∈ ips, out.countP (fun v => srcKey v == some a) = 1 := by
  refine ⟨(update_rules_core rules m ips kid).1, (update_rules_core rules m ips kid).2.1,
    (update_rules_core rules m ips kid).2.2,
    update_rules_in_row_eq loads header row ips kid i raw rules m h1 h2 h3 h4, ?_⟩
  intro a ha
  exact update_rules_core_srcKey_count rules m ips kid hwf hnd a ha

/-- Witness for the amended C4: two existing rules share `1.2.3.4`; the
output keeps exactly one. -/
theorem C4_unique_address_amended_witness :
    (["1.2.3.4"] : List String).Nodup ∧
    (∃ out added skipped,
      update_rules_in_row loadsDemoDup ["rules"]
          ["[\x7b\"src_ip\": \"1.2.3.4\", \"id\": 1\x7d, \x7b\"src_ip\": \"1.2.3.4\", \"id\": 9\x7d]"]
          ["1.2.3.4"] false =
        Except.ok
          (["[\x7b\"src_ip\": \"1.2.3.4\", \"id\": 1\x7d, \x7b\"src_ip\": \"1.2.3.4\", \"id\": 9\x7d]"].set
            0 (dump_json_field (JVal.arr out)), added, skipped) ∧
      ∀ a ∈ (["1.2.3.4"] : List String), out.countP (fun v => srcKey v == some a) = 1) :=
  ⟨by decide,
    C4_unique_address_amended loadsDemoDup ["rules"]
      ["[\x7b\"src_ip\": \"1.2.3.4\", \"id\": 1\x7d, \x7b\"src_ip\": \"1.2.3.4\", \"id\": 9\x7d]"]
      ["1.2.3.4"] false 0
      "[\x7b\"src_ip\": \"1.2.3.4\", \"id\": 1\x7d, \x7b\"src_ip\": \"1.2.3.4\", \"id\": 9\x7d]"
      [JVal.obj [("src_ip", JVal.str "1.2.3.4"), ("id", JVal.num 1)],
       JVal.obj [("src_ip", JVal.str "1.2.3.4"), ("id", JVal.num 9)]] 9
      rfl rfl (Or.inl rfl) rfl (by decide) (by decide)⟩

/-! ### Empty allow-list -/

theorem map_getD_range {α : Type} (l : List α) (d : α) :
    (List.range l.length).map (fun i => l.getD i d) = l := by
  apply List.ext_getElem
  · simp
  · intro i h1 h2
    simp only [List.getElem_map, List.getElem_range]
    rw [List.getD_eq_getElem _ _ h2]

theorem countP_range_getD {α : Type} (l : List α) (d : α) (p : α → Bool) (k : Nat)
    (hk : k ≤ l.length) :
    (List.range k).countP (fun i => p (l.getD i d)) = (l.take k).countP p := by
  induction k with
  | zero => simp
  | succ k' ih =>
    have hk' : k' ≤ l.length := by omega
    have hget : l[k']? = some (l.getD k' d) := by
      rw [List.getElem?_eq_getElem (by omega : k' < l.length),
        List.getD_eq_getElem _ _ (by omega : k' < l.length)]
    rw [List.range_succ, List.countP_append, ih hk', List.take_succ, hget,
      List.countP_append]
    simp [List.countP_cons]

theorem update_rules_core_empty_keep (rules : List JVal) (m : Int) :
    update_rules_core rules m [] true = (rules, 0, 0) := by
  rw [update_rules_core_def]
  show (((buildTop (first_seen_map rules (ipOrderOf [])) rules.length (ipOrderOf [])).refs ++
      remainingRefs rules (ipOrderOf [])).map _, _, _) = (rules, 0, 0)
  have h0 : ipOrderOf [] = ([] : List String) := rfl
  rw [h0]
  have hb : buildTop (first_seen_map rules []) rules.length [] = ⟨[], [], 0, 0⟩ := rfl
  rw [hb, remainingRefs_empty_set]
  simp only [List.nil_append, List.append_nil, List.length_nil, List.range_zero,
    List.map_nil, assignSeq, if_true]
  rw [map_getD_range rules JVal.null]

theorem update_rules_core_empty_renumber (rules : List JVal) (m : Int) :
    (update_rules_core rules m [] false).2.1 = 0 ∧
    (update_rules_core rules m [] false).2.2 = 0 ∧
    (update_rules_core rules m [] false).1.length = rules.length ∧
    ∀ k, k < rules.length →
      (update_rules_core rules m [] false).1.getD k JVal.null =
        match rules.getD k JVal.null with
        | JVal.obj d =>
          JVal.obj (dictSetId d (1 + (((rules.take k).countP isObj : Nat) : Int)))
        | v => v := by
  rw [update_rules_core_def]
  have h0 : ipOrderOf [] = ([] : List String) := rfl
  rw [h0]
  simp only []
  have hb : buildTop (first_seen_map rules []) rules.length [] = ⟨[], [], 0, 0⟩ := rfl
  rw [hb, remainingRefs_empty_set]
  simp only [List.nil_append, List.append_nil, Bool.false_eq_true, if_false]
  refine ⟨by trivial, by trivial, by simp, ?_⟩
  intro k hk
  have hk2 : k < (List.range rules.length).length := by simpa using hk
  have hout := map_getD_lt (fun r => (assignSeq rules (List.range rules.length) 1).getD r
    JVal.null) (List.range rules.length) k JVal.null 0 hk2
  rw [hout, getD_range _ _ hk]
  simp only []
  have hengine := assignSeq_getD_nodup rules (List.range rules.length) 1 k
    (List.nodup_range _) hk2
  rw [getD_range _ _ hk] at hengine
  rw [hengine]
  have htk : (List.range rules.length).take k = List.range k := by
    rw [List.take_range]
    congr 1
    omega
  rw [htk, countP_range_getD rules JVal.null isObj k (by omega)]

/-- C7: with an empty allow-list, `update_rules_in_row` neither reorders
the collection nor alters any rule field other than the id changes
implied by `keep_ids`: with `keep_ids` the collection is returned exactly
as decoded, and without it each rule object only has its `id` rewritten to
its sequential position among the rule objects (1-based), every other
field and the order staying intact. -/
theorem C7_empty_allowlist_roundtrip (loads : String → Except String JVal)
    (header row : List String) (kid : Bool) (i : Nat) (raw : String) (rules : List JVal)
    (m : Int)
    (h1 : listIndex header "rules" = some i) (h2 : row.get? i = some raw)
    (h3 : parsesToList loads raw rules)
    (h4 : compute_max_id_any loads header row rules = Except.ok m) :
    ∃ out added skipped,
      update_rules_in_row loads header row [] kid =
        Except.ok (row.set i (dump_json_field (JVal.arr out)), added, skipped) ∧
      added = 0 ∧ skipped = 0 ∧
      (kid = true → out = rules) ∧
      (kid = false →
        out.length = rules.length ∧
        ∀ k, k < rules.length →
          out.getD k JVal.null =
            match rules.getD k JVal.null with
            | JVal.obj d =>
              JVal.obj (dictSetId d (1 + (((rules.take k).countP isObj : Nat) : Int)))
            | v => v) := by
  refine ⟨(update_rules_core rules m [] kid).1, (update_rules_core rules m [] kid).2.1,
    (update_rules_core rules m [] kid).2.2,
    update_rules_in_row_eq loads header row [] kid i raw rules m h1 h2 h3 h4, ?_, ?_, ?_, ?_⟩
  · cases kid
    · exact (update_rules_core_empty_renumber rules m).1
    · rw [update_rules_core_empty_keep rules m]
  · cases kid
    · exact (update_rules_core_empty_renumber rules m).2.1
    · rw [update_rules_core_empty_keep rules m]
  · intro hkid
    subst hkid
    rw [update_rules_core_empty_keep rules m]
  · intro hkid
    subst hkid
    exact ⟨(update_rules_core_empty_renumber rules m).2.2.1,
      (update_rules_core_empty_renumber rules m).2.2.2⟩

/-- Witness for C7. -/
theorem C7_empty_allowlist_roundtrip_witness :
    listIndex ["rules"] "rules" = some 0 ∧
    (∃ out added skipped,
      update_rules_in_row loadsDemo ["rules"] ["[\x7b\"src_ip\": \"1.2.3.4\", \"id\": 1\x7d]"]
          [] true =
        Except.ok (["[\x7b\"src_ip\": \"1.2.3.4\", \"id\": 1\x7d]"].set 0
          (dump_json_field (JVal.arr out)), added, skipped) ∧
      added = 0 ∧ skipped = 0 ∧
      (true = true → out = [JVal.obj [("src_ip", JVal.str "1.2.3.4"), ("id", JVal.num 1)]]) ∧
      (true = false →
        out.length = ([JVal.obj [("src_ip", JVal.str "1.2.3.4"), ("id", JVal.num 1)]] :
          List JVal).length ∧
        ∀ k, k < ([JVal.obj [("src_ip", JVal.str "1.2.3.4"), ("id", JVal.num 1)]] :
            List JVal).length →
          out.getD k JVal.null =
            match ([JVal.obj [("src_ip", JVal.str "1.2.3.4"), ("id", JVal.num 1)]] :
                List JVal).getD k JVal.null with
            | JVal.obj d =>
              JVal.obj (dictSetId d (1 +
                (((([JVal.obj [("src_ip", JVal.str "1.2.3.4"), ("id", JVal.num 1)]] :
                  List JVal).take k).countP isObj : Nat) : Int)))
            | v => v)) :=
  ⟨rfl,
    C7_empty_allowlist_roundtrip loadsDemo ["rules"]
      ["[\x7b\"src_ip\": \"1.2.3.4\", \"id\": 1\x7d]"] true 0
      "[\x7b\"src_ip\": \"1.2.3.4\", \"id\": 1\x7d]"
      [JVal.obj [("src_ip", JVal.str "1.2.3.4"), ("id", JVal.num 1)]] 1
      rfl rfl (Or.inl rfl) rfl⟩

/-! ### Error conditions -/

theorem compute_max_id_any_error_iff (loads : String → Except String JVal)
    (header row : List String) (rules : List JVal) :
    (∃ e, compute_max_id_any loads header row rules = Except.error e) ↔
      (∃ i6, listIndex header "rulesv6" = some i6 ∧ row.get? i6 = none) := by
  unfold compute_max_id_any
  cases h5 : listIndex header "rulesv6" with
  | none =>
    simp only []
    constructor
    · rintro ⟨e, he⟩
      cases he
    · rintro ⟨i6, hi6, _⟩
      cases hi6
  | some i6 =>
    simp only []
    cases h6 : row.get? i6 with
    | none =>
      simp only []
      exact ⟨fun _ => ⟨i6, rfl, h6⟩, fun _ => ⟨PyErr.indexError, rfl⟩⟩
    | some raw6 =>
      simp only []
      constructor
      · rintro ⟨e, he⟩
        cases h7 : parse_json_field loads raw6 with
        | error e2 => rw [h7] at he; cases he
        | ok v => rw [h7] at he; cases v <;> cases he
      · rintro ⟨j6, hj6, hrow6⟩
        have hji : j6 = i6 := by
          injection hj6 with hji
          exact hji.symm
        subst hji
        rw [h6] at hrow6
        cases hrow6

theorem go_eq_compute (loads : String → Except String JVal) (header row ips : List String)
    (kid : Bool) (i : Nat) (rules : List JVal) :
    update_rules_in_row.go loads header row ips kid i rules =
      match compute_max_id_any loads header row rules with
      | Except.error e => Except.error e
      | Except.ok m =>
        Except.ok
          (row.set i (dump_json_field (JVal.arr (update_rules_core rules m ips kid).1)),
           (update_rules_core rules m ips kid).2.1,
           (update_rules_core rules m ips kid).2.2) := by
  unfold update_rules_in_row.go
  cases h : compute_max_id_any loads header row rules <;> simp [h]

/-- C6 counterexample: a row with no field at the `rules` column's index
makes `row[rules_index]` raise `IndexError` — an error outside the three
conditions the claim enumerates (the header does have a `rules` column,
and there is no field content to decode or type-check at all). -/
theorem C6_error_conditions_counterexample :
    update_rules_in_row loadsDemo ["rules"] [] [] false = Except.error PyErr.indexError ∧
    listIndex ["rules"] "rules" = some 0 ∧
    ([] : List String).get? 0 = none :=
  ⟨rfl, rfl, rfl⟩

/-- C6 (amended): `update_rules_in_row` raises if and only if the header
lacks the `rules` column, or the row is too short to contain that column,
or the (non-empty) field content fails to decode, or it decodes to a value
that is neither `null` nor a list, or the header also names a `rulesv6`
column that lies beyond the row's end (the `try` block catches only
`ValueError`, not `IndexError`).  In the decode-failure case the raised
message carries the underlying parse error and the offending content
truncated to 2000 characters. -/
theorem C6_error_conditions_amended (loads : String → Except String JVal)
    (header row ips : List String) (kid : Bool) :
    ((∃ e, update_rules_in_row loads header row ips kid = Except.error e) ↔
      (listIndex header "rules" = none ∨
       (∃ i, listIndex header "rules" = some i ∧ row.get? i = none) ∨
       (∃ i raw e, listIndex header "rules" = some i ∧ row.get? i = some raw ∧
         raw ≠ "" ∧ loads raw = Except.error e) ∨
       (∃ i raw v, listIndex header "rules" = some i ∧ row.get? i = some raw ∧
         parse_json_field loads raw = Except.ok v ∧ v ≠ JVal.null ∧
         (∀ xs, v ≠ JVal.arr xs)) ∨
       (∃ i raw rules i6, listIndex header "rules" = some i ∧ row.get? i = some raw ∧
         parsesToList loads raw rules ∧ listIndex header "rulesv6" = some i6 ∧
         row.get? i6 = none))) ∧
    (∀ i raw e, listIndex header "rules" = some i → row.get? i = some raw → raw ≠ "" →
      loads raw = Except.error e →
      update_rules_in_row loads header row ips kid =
        Except.error (PyErr.valueError
          ("Failed to parse JSON from CSV field. Error: " ++ e ++
            "\nValue (truncated): " ++ pyTakeChars raw 2000))) := by
  constructor
  · cases hI : listIndex header "rules" with
    | none =>
      simp only [update_rules_in_row, hI]
      exact ⟨fun _ => Or.inl (by trivial), fun _ => ⟨_, rfl⟩⟩
    | some i =>
      cases hR : row.get? i with
      | none =>
        simp only [update_rules_in_row, hI, hR]
        exact ⟨fun _ => Or.inr (Or.inl ⟨i, rfl, hR⟩), fun _ => ⟨_, rfl⟩⟩
      | some raw =>
        cases hP : parse_json_field loads raw with
        | error msg =>
          simp only [update_rules_in_row, hI, hR, hP]
          constructor
          · intro _
            refine Or.inr (Or.inr (Or.inl ⟨i, raw, ?_⟩))
            have hraw : ¬ raw = "" := by
              intro hc
              rw [hc] at hP
              simp [parse_json_field] at hP
            cases hL : loads raw with
            | error e2 => exact ⟨e2, rfl, hR, hraw, rfl⟩
            | ok v =>
              exfalso
              simp [parse_json_field, hraw, hL] at hP
          · intro _
            exact ⟨_, rfl⟩
        | ok v =>
          have hgo : ∀ rules : List JVal,
              (∃ e, update_rules_in_row.go loads header row ips kid i rules =
                Except.error e) ↔
              (∃ i6, listIndex header "rulesv6" = some i6 ∧ row.get? i6 = none) := by
            intro rules
            rw [go_eq_compute]
            cases hc : compute_max_id_any loads header row rules with
            | error e =>
              simp only []
              constructor
              · intro _
                exact (compute_max_id_any_error_iff loads header row rules).mp ⟨e, hc⟩
              · intro _
                exact ⟨e, rfl⟩
            | ok mm =>
              simp only []
              constructor
              · rintro ⟨e, he⟩
                cases he
              · intro hv6
                obtain ⟨e, he⟩ :=
                  (compute_max_id_any_error_iff loads header row rules).mpr hv6
                rw [hc] at he
                cases he
          cases v with
          | null =>
            simp only [update_rules_in_row, hI, hR, hP]
            rw [hgo []]
            constructor
            · intro hv6
              exact Or.inr (Or.inr (Or.inr (Or.inr
                ⟨i, raw, [], hv6.choose, rfl, hR, Or.inr ⟨hP, rfl⟩, hv6.choose_spec⟩)))
            · intro hcond
              rcases hcond with hc | ⟨i2, hc, hc2⟩ | ⟨i2, raw2, e2, hc, hc2, hc3, hc4⟩ |
                ⟨i2, raw2, v2, hc, hc2, hc3, hc4, hc5⟩ | ⟨i2, raw2, rules2, i6, hc, hc2, hc3, hc4, hc5⟩
              · cases hc
              · injection hc with hc
                subst hc
                rw [hR] at hc2
                cases hc2
              · injection hc with hc
                subst hc
                rw [hR] at hc2
                injection hc2 with hc2
                subst hc2
                simp [parse_json_field, hc3, hc4] at hP
              · injection hc with hc
                subst hc
                rw [hR] at hc2
                injection hc2 with hc2
                subst hc2
                rw [hP] at hc3
                injection hc3 with hc3
                exact absurd hc3.symm hc4
              · exact ⟨i6, hc4, hc5⟩
          | arr xs =>
            simp only [update_rules_in_row, hI, hR, hP]
            rw [hgo xs]
            constructor
            · intro hv6
              exact Or.inr (Or.inr (Or.inr (Or.inr
                ⟨i, raw, xs, hv6.choose, rfl, hR, Or.inl hP, hv6.choose_spec⟩)))
            · intro hcond
              rcases hcond with hc | ⟨i2, hc, hc2⟩ | ⟨i2, raw2, e2, hc, hc2, hc3, hc4⟩ |
                ⟨i2, raw2, v2, hc, hc2, hc3, hc4, hc5⟩ | ⟨i2, raw2, rules2, i6, hc, hc2, hc3, hc4, hc5⟩
              · cases hc
              · injection hc with hc
                subst hc
                rw [hR] at hc2
                cases hc2
              · injection hc with hc
                subst hc
                rw [hR] at hc2
                injection hc2 with hc2
                subst hc2
                simp [parse_json_field, hc3, hc4] at hP
              · injection hc with hc
                subst hc
                rw [hR] at hc2
                injection hc2 with hc2
                subst hc2
                rw [hP] at hc3
                injection hc3 with hc3
                exact absurd hc3.symm (hc5 xs)
              · exact ⟨i6, hc4, hc5⟩
          | bool b =>
            simp only [update_rules_in_row, hI, hR, hP]
            exact ⟨fun _ => Or.inr (Or.inr (Or.inr (Or.inl
              ⟨i, raw, JVal.bool b, rfl, hR, hP, (by intro hc; cases hc),
                (by intro xs hc; cases hc)⟩))), fun _ => ⟨_, rfl⟩⟩
          | num n =>
            simp only [update_rules_in_row, hI, hR, hP]
            exact ⟨fun _ => Or.inr (Or.inr (Or.inr (Or.inl
              ⟨i, raw, JVal.num n, rfl, hR, hP, (by intro hc; cases hc),
                (by intro xs hc; cases hc)⟩))), fun _ => ⟨_, rfl⟩⟩
          | str s =>
            simp only [update_rules_in_row, hI, hR, hP]
            exact ⟨fun _ => Or.inr (Or.inr (Or.inr (Or.inl
              ⟨i, raw, JVal.str s, rfl, hR, hP, (by intro hc; cases hc),
                (by intro xs hc; cases hc)⟩))), fun _ => ⟨_, rfl⟩⟩
          | obj d =>
            simp only [update_rules_in_row, hI, hR, hP]
            exact ⟨fun _ => Or.inr (Or.inr (Or.inr (Or.inl
              ⟨i, raw, JVal.obj d, rfl, hR, hP, (by intro hc; cases hc),
                (by intro xs hc; cases hc)⟩))), fun _ => ⟨_, rfl⟩⟩
  · intro i raw e hI hR hraw hL
    simp only [update_rules_in_row, hI, hR, parse_json_field, hraw, if_false, hL]

/-- Witness for the amended C6, exercising the decode-failure message. -/
theorem C6_error_conditions_amended_witness :
    ("bad" : String) ≠ "" ∧
    update_rules_in_row loadsDemo ["rules"] ["bad"] [] false =
      Except.error (PyErr.valueError
        ("Failed to parse JSON from CSV field. Error: " ++
          "Expecting value: line 1 column 1 (char 0)" ++
          "\nValue (truncated): " ++ pyTakeChars "bad" 2000)) :=
  ⟨by decide,
    (C6_error_conditions_amended loadsDemo ["rules"] ["bad"] [] false).2 0 "bad"
      "Expecting value: line 1 column 1 (char 0)" rfl rfl (by decide) rfl⟩

/-! ### Empty rules field -/

/-- With no existing rules, every (trimmed, non-empty) allow entry becomes
a fresh rule at its own position, ids running from the start value up. -/
theorem update_rules_core_nil_rules (m : Int) (ips : List String) (kid : Bool)
    (hwf : ∀ ip ∈ ips, pyStrip ip = ip ∧ ip ≠ "") :
    (update_rules_core [] m ips kid).2.1 = ips.length ∧
    (update_rules_core [] m ips kid).2.2 = 0 ∧
    (update_rules_core [] m ips kid).1.length = ips.length ∧
    ∀ k, k < ips.length →
      (update_rules_core [] m ips kid).1.getD k JVal.null =
        build_allow_rule (ips.getD k "") ((if kid then m + 1 else 1) + (k : Int)) := by
  have hfmnil : ∀ ip : String, firstMatchIdx [] ip = none := fun _ => rfl
  obtain ⟨hadd, hskip⟩ := update_rules_core_counts [] m ips kid hwf
  refine ⟨?_, ?_, ?_, ?_⟩
  · rw [hadd, List.countP_eq_length]
    intro ip _
    simp [hfmnil ip]
  · rw [hskip, List.countP_eq_zero]
    intro ip _
    simp [hfmnil ip]
  · rw [update_rules_core_length [] m ips kid hwf]
    simp [remainingRefs]
  · intro k hk
    cases kid with
    | true =>
      have h := update_rules_core_keep [] m ips hwf k hk
      rw [hfmnil (ips.getD k "")] at h
      simp only [] at h
      rw [h]
      have hcnt : ((ips.take k).countP (fun ip => (firstMatchIdx [] ip).isNone)) = k := by
        rw [List.countP_eq_length.mpr (fun ip _ => by simp [hfmnil ip]), List.length_take]
        omega
      rw [hcnt]
      simp
    | false =>
      have hip : ipOrderOf ips = ips := ipOrderOf_eq_self ips hwf
      rw [update_rules_core_def, hip]
      simp only [Bool.false_eq_true, if_false]
      have hfs : first_seen_map [] ips = [] := rfl
      rw [hfs]
      have hrem : remainingRefs [] ips = [] := rfl
      rw [hrem]
      set t := buildTop [] ([] : List JVal).length ips with ht
      have hreflen : t.refs.length = ips.length := buildTop_refs_length [] _ ips
      have hcreated : t.created = ips.map (fun ip => build_allow_rule ip 0) := by
        rw [ht, buildTop_created]
        congr 1
        rw [List.filter_eq_self.mpr]
        intro ip _
        rfl
      have hrefs : t.refs = List.range ips.length := by
        apply List.ext_getElem
        · simp [hreflen]
        · intro j h1 h2
          have hj : j < ips.length := by simpa using h2
          have hg := buildTop_refs_getD [] ([] : List JVal).length ips j hj
          rw [← ht] at hg
          simp only [alookup_nil, List.length_nil] at hg
          rw [List.countP_eq_length.mpr (fun ip _ => by simp), List.length_take] at hg
          rw [← List.getD_eq_getElem t.refs 0 h1, hg]
          simp only [List.getElem_range]
          rw [Nat.min_eq_left (Nat.le_of_lt hj)]
          exact Nat.zero_add j
      rw [List.append_nil]
      have hk2 : k < t.refs.length := by omega
      have hout := map_getD_lt (fun r =>
        (assignSeq ([] ++ t.created) t.refs 1).getD r JVal.null) t.refs k JVal.null 0 hk2
      rw [hout]
      simp only []
      have hnd : t.refs.Nodup := by
        rw [hrefs]
        exact List.nodup_range _
      have hengine := assignSeq_getD_nodup ([] ++ t.created) t.refs 1 k hnd hk2
      have hrefk : t.refs.getD k 0 = k := by
        rw [hrefs, getD_range _ _ hk]
      rw [hrefk] at hengine
      have hstk : (([] : List JVal) ++ t.created).getD k JVal.null =
          build_allow_rule (ips.getD k "") 0 := by
        rw [List.nil_append, hcreated, map_getD_lt _ _ k JVal.null "" (by simpa using hk)]
      rw [hstk] at hengine
      have hcnt : (t.refs.take k).countP
          (fun r => isObj ((([] : List JVal) ++ t.created).getD r JVal.null)) = k := by
        have hall : ∀ r ∈ t.refs.take k,
            isObj ((([] : List JVal) ++ t.created).getD r JVal.null) = true := by
          intro r hr
          have hrmem : r ∈ t.refs := List.take_subset _ _ hr
          rw [hrefs] at hrmem
          have hrlt : r < ips.length := List.mem_range.mp hrmem
          rw [List.nil_append, hcreated,
            map_getD_lt _ _ r JVal.null "" (by simpa using hrlt)]
          rfl
        rw [List.countP_eq_length.mpr hall, List.length_take]
        omega
      rw [hcnt] at hengine
      rw [hrefk, hengine]
      rw [show build_allow_rule (ips.getD k "") 0 =
        JVal.obj (buildAllowFields (ips.getD k "") ++ [("id", JVal.num 0)]) from rfl]
      simp only [dictSetId_build_allow_rule]
      rfl

/-- C10 counterexample: when the `rules` column exists in the header but the
first data row is too short to have a value at that index (an absent value),
`row[rules_index]` raises `IndexError`; the field is not treated as an empty
rule list. -/
theorem C10_empty_rules_counterexample :
    listIndex ["name", "rules"] "rules" = some 1 ∧
    (["x"] : List String).get? 1 = none ∧
    update_rules_in_row loadsDemo ["name", "rules"] ["x"] ["9.9.9.9"] false =
      Except.error PyErr.indexError :=
  ⟨rfl, rfl, rfl⟩

/-- C10 (amended): when the `rules` field of the first data row is the EMPTY
STRING (absent values instead raise `IndexError`), and the `rulesv6`
bookkeeping succeeds (hypothesis `h4`, which holds in particular whenever
`rulesv6` is not in the header), the field is treated as an empty rule list
and no error is raised: with a well-formed allow-list every entry is added
as a newly synthesized rule (`added = N`, `skipped = 0`), the output list
holds exactly the `build_allow_rule` defaults for each entry with ids
counting up from the start value, and the row's field is overwritten with
the serialized new list. -/
theorem C10_empty_rules_amended (loads : String → Except String JVal)
    (header row ips : List String) (kid : Bool) (i : Nat) (m : Int)
    (hwf : ∀ ip ∈ ips, pyStrip ip = ip ∧ ip ≠ "")
    (h1 : listIndex header "rules" = some i) (h2 : row.get? i = some "")
    (h4 : compute_max_id_any loads header row [] = Except.ok m) :
    update_rules_in_row loads header row ips kid =
      Except.ok
        (row.set i (dump_json_field (JVal.arr (update_rules_core [] m ips kid).1)),
          ips.length, 0) ∧
    (update_rules_core [] m ips kid).1.length = ips.length ∧
    ∀ k, k < ips.length →
      (update_rules_core [] m ips kid).1.getD k JVal.null =
        build_allow_rule (ips.getD k "") ((if kid then m + 1 else 1) + (k : Int)) := by
  have h3 : parsesToList loads "" [] := Or.inr ⟨by simp [parse_json_field], rfl⟩
  have heq := update_rules_in_row_eq loads header row ips kid i "" [] m h1 h2 h3 h4
  obtain ⟨hadd, hskip, hlen, hpt⟩ := update_rules_core_nil_rules m ips kid hwf
  refine ⟨?_, hlen, hpt⟩
  rw [heq, hadd, hskip]

/-- Witness for the amended C10 at a concrete empty rules field. -/
theorem C10_empty_rules_amended_witness :
    (∀ ip ∈ (["9.9.9.9"] : List String), pyStrip ip = ip ∧ ip ≠ "") ∧
    update_rules_in_row loadsDemo ["rules"] [""] ["9.9.9.9"] false =
      Except.ok
        (([""] : List String).set 0
          (dump_json_field (JVal.arr (update_rules_core [] 0 ["9.9.9.9"] false).1)),
          1, 0) :=
  ⟨by decide,
    (C10_empty_rules_amended loadsDemo ["rules"] [""] ["9.9.9.9"] false 0 0
      (by decide) rfl rfl rfl).1⟩

/-! ### Backup behaviour of `process` -/

theorem fsRead_fsWrite_self (fs : List (String × String)) (p c : String) :
    fsRead (fsWrite fs p c) p = some c := by
  simp [fsRead, fsWrite]

theorem fsRead_fsWrite_ne (fs : List (String × String)) (p q c : String) (h : q ≠ p) :
    fsRead (fsWrite fs p c) q = fsRead fs q := by
  simp only [fsRead, fsWrite, alookup_cons]
  rw [if_neg (fun hc => h hc.symm)]

theorem bak_ne (s : String) : s ++ ".bak" ≠ s := by
  intro h
  have hlen := congrArg String.length h
  rw [String.length_append] at hlen
  have h4 : (".bak" : String).length = 4 := rfl
  omega

/-- C8: running `process` in place with backups enabled never overwrites an
existing backup file, and creates the backup (with the original table's
bytes) exactly when the backup path is absent. -/
theorem C8_backup_preserved (loads : String → Except String JVal)
    (fs : List (String × String)) (csv ip : String) (kid : Bool)
    (fs' : List (String × String)) (a s : Nat)
    (hproc : process loads fs csv ip none true true kid = Except.ok (fs', a, s)) :
    (osPathExists fs (csv ++ ".bak") = true →
       fsRead fs' (csv ++ ".bak") = fsRead fs (csv ++ ".bak")) ∧
    (osPathExists fs (csv ++ ".bak") = false →
       fsRead fs' (csv ++ ".bak") = fsRead fs csv) := by
  unfold process at hproc
  cases hc1 : fsRead fs csv with
  | none => rw [hc1] at hproc; exact Except.noConfusion hproc
  | some content =>
  simp only [hc1] at hproc
  cases hc2 : csvParse (stripBOM content) with
  | nil => rw [hc2] at hproc; exact Except.noConfusion hproc
  | cons header data_rows =>
  simp only [hc2] at hproc
  cases hc3 : fsRead fs ip with
  | none => rw [hc3] at hproc; exact Except.noConfusion hproc
  | some ip_content =>
  simp only [hc3] at hproc
  cases data_rows with
  | nil => exact Except.noConfusion hproc
  | cons row0 rest =>
  simp only [] at hproc
  cases hupd : update_rules_in_row loads header row0 (read_ip_list_str ip_content) kid with
  | error e => rw [hupd] at hproc; exact Except.noConfusion hproc
  | ok t =>
  obtain ⟨row0', added, skipped⟩ := t
  simp only [hupd] at hproc
  cases hb : osPathExists fs (csv ++ ".bak") with
  | true =>
    simp only [hb] at hproc
    simp at hproc
    obtain ⟨hfs, _, _⟩ := hproc
    subst hfs
    exact ⟨fun _ => fsRead_fsWrite_ne fs csv (csv ++ ".bak") _ (bak_ne csv),
      fun h => Bool.noConfusion h⟩
  | false =>
    simp only [hb] at hproc
    simp at hproc
    obtain ⟨hfs, _, _⟩ := hproc
    subst hfs
    refine ⟨fun h => Bool.noConfusion h, fun _ => ?_⟩
    rw [fsRead_fsWrite_ne _ csv (csv ++ ".bak") _ (bak_ne csv), fsRead_fsWrite_self]

/-- Witness for C8 at a concrete in-place run with a pre-existing backup
file: the backup's content is untouched. -/
theorem C8_backup_preserved_witness :
    osPathExists [("t.csv", "x,rules\n1,[]\n2,[]\n"), ("ip.txt", "9.9.9.9\n"),
        ("t.csv.bak", "OLD")] ("t.csv" ++ ".bak") = true ∧
    fsRead (fsWrite [("t.csv", "x,rules\n1,[]\n2,[]\n"), ("ip.txt", "9.9.9.9\n"),
        ("t.csv.bak", "OLD")] "t.csv"
        (dump_csv_str ["x", "rules"]
          [["1", dump_json_field (JVal.arr [build_allow_rule "9.9.9.9" 1])], ["2", "[]"]]))
      ("t.csv" ++ ".bak") =
    fsRead [("t.csv", "x,rules\n1,[]\n2,[]\n"), ("ip.txt", "9.9.9.9\n"),
        ("t.csv.bak", "OLD")] ("t.csv" ++ ".bak") :=
  ⟨rfl,
    (C8_backup_preserved loadsDemo
        [("t.csv", "x,rules\n1,[]\n2,[]\n"), ("ip.txt", "9.9.9.9\n"), ("t.csv.bak", "OLD")]
        "t.csv" "ip.txt" false
        (fsWrite [("t.csv", "x,rules\n1,[]\n2,[]\n"), ("ip.txt", "9.9.9.9\n"),
            ("t.csv.bak", "OLD")] "t.csv"
          (dump_csv_str ["x", "rules"]
            [["1", dump_json_field (JVal.arr [build_allow_rule "9.9.9.9" 1])], ["2", "[]"]]))
        1 0 rfl).1 rfl⟩

/-- C9 counterexample: the writer is not byte-for-byte faithful for the
untouched rows.  With an empty allow-list nothing in the table changes at
field level, yet the written file differs from the input: a UTF-8 BOM is
prepended and every row — including the untouched second data row, which the
input stored as "2,[]\n" — is re-terminated with CRLF. -/
theorem C9_row_fidelity_counterexample :
    process loadsDemo [("t.csv", "x,rules\n1,[]\n2,[]\n"), ("ip.txt", "")]
        "t.csv" "ip.txt" (some "o.csv") false true false =
      Except.ok
        (fsWrite [("t.csv", "x,rules\n1,[]\n2,[]\n"), ("ip.txt", "")] "o.csv"
          (dump_csv_str ["x", "rules"] [["1", "[]"], ["2", "[]"]]), 0, 0) ∧
    dump_csv_str ["x", "rules"] [["1", "[]"], ["2", "[]"]] =
      "\uFEFF" ++ "x,rules\r\n1,[]\r\n2,[]\r\n" ∧
    ("\uFEFF" ++ "x,rules\r\n1,[]\r\n2,[]\r\n" : String) ≠ "x,rules\n1,[]\n2,[]\n" :=
  ⟨rfl, rfl, by decide⟩

/-- C9 (amended): a successful non-in-place run writes exactly the canonical
re-serialization of the parsed table with only the first data row replaced
by the transformed `row0'`: the output file is `dump_csv_str header
(row0' :: rest)`, i.e. a UTF-8 BOM followed by each row serialized with
minimal quoting and CRLF terminators.  All rows other than the first data
row are therefore preserved field-for-field (they reappear verbatim as
`rest`), but not byte-for-byte: line terminators are normalized to CRLF, a
BOM is prepended, and quoting is re-derived. -/
theorem C9_row_fidelity_amended (loads : String → Except String JVal)
    (fs : List (String × String)) (csv ip out_path : String) (kid : Bool)
    (fs' : List (String × String)) (a' s' : Nat)
    (content ip_content : String) (header row0 row0' : List String)
    (rest : List (List String)) (a s : Nat)
    (hc1 : fsRead fs csv = some content)
    (hc2 : csvParse (stripBOM content) = header :: row0 :: rest)
    (hc3 : fsRead fs ip = some ip_content)
    (hupd : update_rules_in_row loads header row0 (read_ip_list_str ip_content) kid =
      Except.ok (row0', a, s))
    (hproc : process loads fs csv ip (some out_path) false true kid =
      Except.ok (fs', a', s')) :
    fs' = fsWrite fs out_path (dump_csv_str header (row0' :: rest)) ∧
    dump_csv_str header (row0' :: rest) =
      "\uFEFF" ++ String.join ((header :: row0' :: rest).map csvLine) := by
  unfold process at hproc
  simp only [hc1, hc2, hc3, hupd] at hproc
  simp at hproc
  exact ⟨hproc.1.symm, rfl⟩

/-- Witness for the amended C9 at a concrete non-in-place run. -/
theorem C9_row_fidelity_amended_witness :
    fsWrite [("t.csv", "x,rules\n1,[]\n2,[]\n"), ("ip.txt", "9.9.9.9\n")] "o.csv"
        (dump_csv_str ["x", "rules"]
          [["1", dump_json_field (JVal.arr [build_allow_rule "9.9.9.9" 1])], ["2", "[]"]]) =
      fsWrite [("t.csv", "x,rules\n1,[]\n2,[]\n"), ("ip.txt", "9.9.9.9\n")] "o.csv"
        (dump_csv_str ["x", "rules"]
          [["1", dump_json_field (JVal.arr [build_allow_rule "9.9.9.9" 1])], ["2", "[]"]]) ∧
    dump_csv_str ["x", "rules"]
        [["1", dump_json_field (JVal.arr [build_allow_rule "9.9.9.9" 1])], ["2", "[]"]] =
      "\uFEFF" ++ String.join ((["x", "rules"] ::
        ["1", dump_json_field (JVal.arr [build_allow_rule "9.9.9.9" 1])] ::
        [["2", "[]"]]).map csvLine) :=
  C9_row_fidelity_amended loadsDemo
    [("t.csv", "x,rules\n1,[]\n2,[]\n"), ("ip.txt", "9.9.9.9\n")]
    "t.csv" "ip.txt" "o.csv" false
    (fsWrite [("t.csv", "x,rules\n1,[]\n2,[]\n"), ("ip.txt", "9.9.9.9\n")] "o.csv"
      (dump_csv_str ["x", "rules"]
        [["1", dump_json_field (JVal.arr [build_allow_rule "9.9.9.9" 1])], ["2", "[]"]]))
    1 0 "x,rules\n1,[]\n2,[]\n" "9.9.9.9\n" ["x", "rules"] ["1", "[]"]
    ["1", dump_json_field (JVal.arr [build_allow_rule "9.9.9.9" 1])]
    [["2", "[]"]] 1 0 rfl rfl rfl rfl rfl
